import Mathlib

/-!
Verification development for the timesheet reconciliation-and-partitioning
engine of `timesheet_splitter_app.py`.

The embedding models the core data path of the program:

* `normalizeTable`   — the row normalizer (lines 436-444): forward-fill of the
  text columns, numeric coercion of the hours column (missing or non-numeric
  cells coerced to `0`), synthesis of an all-zero hours column when absent.
  The date-column parse (line 440) feeds only the report period string and is
  elided.  Machine floats are modelled by exact rationals.
* `buildDirIndex`    — the directory index (lines 446-468): required-column
  check producing a `SchemaError`, then an insertion-ordered id-to-organization
  map with blank ids skipped and last-write-wins on duplicates.
* `processEmp` / `prepareEmployeeData` — the partition resolver
  (lines 470-551): one pass per distinct trimmed employee id, appending to the
  four category collections exactly as the Python loop does.
* `buildSummaryStructures` — the aggregator (lines 554-663): run-level counts,
  the per-organization rollup and the presentation tables (2-decimal rounding
  applied only in presentation rows).
* `filterEmployeesBySuccess` / `filterUnassignedBySuccess` — the
  export-success filtering of `run_main_page` (lines 960-970).

Table cells are `Option`-valued (`none` models a missing / NaN cell); a cell
read through pandas `astype(str)` maps `none` to `"nan"`, which `cellStr`
reproduces.  String helpers (`strTrim`, `strLower`, `sortStrs`) model the
Python `str.strip`, `str.lower` and `sorted` used by the source, implemented
over `List Char` so that all definitions evaluate by kernel reduction.
-/

/-- Decidable equality of `Except` values, used to state concrete runs of the
engine as closed decidable propositions. -/
instance {ε α : Type _} [DecidableEq ε] [DecidableEq α] : DecidableEq (Except ε α) := fun
  | .error e₁, .error e₂ =>
    match decEq e₁ e₂ with
    | isTrue h => isTrue (by rw [h])
    | isFalse h => isFalse (by intro hh; cases hh; exact h rfl)
  | .error _, .ok _ => isFalse (by intro h; cases h)
  | .ok _, .error _ => isFalse (by intro h; cases h)
  | .ok a₁, .ok a₂ =>
    match decEq a₁ a₂ with
    | isTrue h => isTrue (by rw [h])
    | isFalse h => isFalse (by intro hh; cases hh; exact h rfl)

namespace TimesheetSplitter

/-- Character-level lexicographic comparison by code point, the ordering that
Python string comparison and `sorted` use. -/
def listLeB : List Char → List Char → Bool
  | [], _ => true
  | _ :: _, [] => false
  | c :: cs, d :: ds =>
    if c.toNat < d.toNat then true
    else if d.toNat < c.toNat then false
    else listLeB cs ds

/-- Python string `<=` (code-point lexicographic). -/
def strLeB (a b : String) : Bool :=
  listLeB a.data b.data

/-- Insert a string into a list so that an already `strLeB`-sorted list stays
sorted; building block of `sortStrs`. -/
def insertStr (x : String) : List String → List String
  | [] => [x]
  | y :: ys => if strLeB x y then x :: y :: ys else y :: insertStr x ys

/-- Model of Python `sorted` on a collection of strings (insertion sort by
code-point order). -/
def sortStrs : List String → List String
  | [] => []
  | y :: ys => insertStr y (sortStrs ys)

/-- Model of Python `str.strip()`: drop whitespace from both ends. -/
def strTrim (s : String) : String :=
  ⟨((s.data.dropWhile Char.isWhitespace).reverse.dropWhile Char.isWhitespace).reverse⟩

/-- Model of Python `str.lower()` (ASCII case folding). -/
def strLower (s : String) : String :=
  ⟨s.data.map Char.toLower⟩

/-- Model of `emp_id.startswith("P")` (line 495): the first character is the
capital letter P. -/
def startsWithP (s : String) : Bool :=
  match s.data with
  | [] => false
  | c :: _ => c == 'P'

/-- Reading a possibly-missing cell through pandas `astype(str)`: a missing
(NaN) cell prints as the string `"nan"`. -/
def cellStr : Option String → String
  | some s => s
  | none => "nan"

/-- One row of the full timesheet table.  `none` models a missing (NaN) cell;
the `hours` cell holds the value `pd.to_numeric(·, errors="coerce")` would
produce, with `none` for a missing or non-numeric cell. -/
structure RawRow where
  empId : Option String
  empName : Option String
  hours : Option ℚ
  projectType : Option String
deriving DecidableEq

/-- The full timesheet table: its rows plus which of the relevant columns are
present in the uploaded file. -/
structure RawTable where
  hasIdCol : Bool
  hasNameCol : Bool
  hasHoursCol : Bool
  hasProjectTypeCol : Bool
  rows : List RawRow
deriving DecidableEq

/-- Forward fill of the text columns (line 437): each missing id / name /
project-type cell takes the nearest preceding non-missing value of its column.
The accumulators hold the last seen value of each column. -/
def ffillRows (lastId lastName lastPT : Option String) : List RawRow → List RawRow
  | [] => []
  | r :: rs =>
    let id := r.empId <|> lastId
    let nm := r.empName <|> lastName
    let pt := r.projectType <|> lastPT
    { r with empId := id, empName := nm, projectType := pt } ::
      ffillRows id nm pt rs

/-- Numeric coercion of the hours cell (lines 441-444): with the column
present, `to_numeric(errors="coerce").fillna(0)`; with the column absent, the
column is synthesized as all-zero. -/
def coerceHours (hasHoursCol : Bool) (r : RawRow) : RawRow :=
  { r with hours := some (if hasHoursCol then r.hours.getD 0 else 0) }

/-- The row normalizer (lines 436-444): forward fill, then hours coercion.
After it, the hours column always exists. -/
def normalizeTable (t : RawTable) : RawTable :=
  { t with
    rows := (ffillRows none none none t.rows).map (coerceHours t.hasHoursCol)
    hasHoursCol := true }

/-- One row of the vendor / employee database table.  The id cell is read
through `str(...)` by the source, so it is modelled as a string. -/
structure DbRow where
  empId : String
  vendor : String
  empName : Option String
deriving DecidableEq

/-- The database table: its column names (for the schema check) and rows. -/
structure DbTable where
  cols : List String
  rows : List DbRow
deriving DecidableEq

/-- Column-name constants of the database table (lines 39-41). -/
def DB_EMP_ID_COL : String := "Emp ID"

def DB_EMP_NAME_COL : String := "Employee Name"

def DB_VENDOR_COL : String := "Organization"

/-- Default vendor for P* employees not in the database (line 46). -/
def DEFAULT_VENDOR_NAME : String := "UnAssigned Vendor"

/-- Python `dict` assignment `m[k] = v` on an insertion-ordered map: replace
the entry in place if the key exists, otherwise append at the end. -/
def odUpsert : List (String × α) → String → α → List (String × α)
  | [], k, v => [(k, v)]
  | p :: m, k, v => if p.1 == k then (k, v) :: m else p :: odUpsert m k v

/-- Python `dict` lookup `m.get(k)` on an insertion-ordered map. -/
def odGet? (m : List (String × α)) (k : String) : Option α :=
  (m.find? (fun p => p.1 == k)).map Prod.snd

/-- The schema failure raised for a directory table missing required columns
(lines 450-459): the missing column names and the columns actually found. -/
structure SchemaError where
  missing : List String
  found : List String
deriving DecidableEq

/-- The missing-column list the source builds at lines 451-455: the id column
first if absent, then the organization column if absent. -/
def missingDbCols (db : DbTable) : List String :=
  (if db.cols.contains DB_EMP_ID_COL then [] else [DB_EMP_ID_COL]) ++
    (if db.cols.contains DB_VENDOR_COL then [] else [DB_VENDOR_COL])

/-- One step of the directory-index loop (lines 461-466) restricted to the
id-to-vendor map: trim the id, skip the row when the trimmed id is empty,
otherwise write (overwriting any earlier entry for the same id). -/
def dbStep (m : List (String × String)) (r : DbRow) : List (String × String) :=
  if strTrim r.empId ≠ "" then odUpsert m (strTrim r.empId) r.vendor else m

/-- The id-to-organization map built from the directory rows in source row
order. -/
def buildVendorMap (rows : List DbRow) : List (String × String) :=
  rows.foldl dbStep []

/-- One step of the directory-index loop restricted to the id-to-display-name
map (lines 467-468): only non-missing names are recorded. -/
def dbNameStep (m : List (String × String)) (r : DbRow) : List (String × String) :=
  if strTrim r.empId ≠ "" then
    match r.empName with
    | some n => odUpsert m (strTrim r.empId) n
    | none => m
  else m

/-- The id-to-display-name map built from the directory rows (built by the
source but never read afterwards; kept for fidelity). -/
def buildNameMap (rows : List DbRow) : List (String × String) :=
  rows.foldl dbNameStep []

/-- The directory index (lines 446-468): verify the required columns, then
build the two maps.  On a missing column, fail with a `SchemaError` naming the
missing columns and the columns found. -/
def buildDirIndex (db : DbTable) :
    Except SchemaError (List (String × String) × List (String × String)) :=
  if db.cols.contains DB_EMP_ID_COL && db.cols.contains DB_VENDOR_COL then
    .ok (buildVendorMap db.rows, buildNameMap db.rows)
  else
    .error ⟨missingDbCols db, db.cols⟩

/-- The normalized ignore set (line 470): drop empty entries, trim and
case-fold the rest, as a Python `set` (duplicates removed). -/
def mkIgnoreSet (ignoreList : List String) : List String :=
  ((ignoreList.filter (fun v => v ≠ "")).map (fun v => strLower (strTrim v))).dedup

/-- The rows belonging to one employee id (line 484): rows whose id cell,
printed through `astype(str)` and trimmed, equals the id. -/
def rowsFor (rows : List RawRow) (empId : String) : List RawRow :=
  rows.filter (fun r => strTrim (cellStr r.empId) == empId)

/-- Display-name resolution (lines 488-489): the first non-missing name cell
among the id's rows in row order, defaulting to the empty string. -/
def resolveName (empRows : List RawRow) : String :=
  ((empRows.filterMap RawRow.empName).head?).getD ""

/-- Total hours of an employee (line 490): the sum of the hours column over
the id's rows. -/
def totalHoursOf (empRows : List RawRow) : ℚ :=
  (empRows.map (fun r => r.hours.getD 0)).sum

/-- The project-type labels of the id's rows that match the ignore set
(lines 521-523): computed only when the project-type column exists and the
ignore set is non-empty; labels are the trimmed original-case values, matched
after a further trim and case fold, de-duplicated and sorted. -/
def matchedPTs (hasPTCol : Bool) (ignoreSet : List String) (empRows : List RawRow) :
    List String :=
  if hasPTCol && !ignoreSet.isEmpty then
    sortStrs ((((empRows.filterMap RawRow.projectType).map strTrim).filter
      (fun v => ignoreSet.contains (strLower (strTrim v)))).dedup)
  else []

/-- An entry of the `employees` (exportable) collection (lines 538-549). -/
structure ExportRec where
  vendor : String
  empId : String
  empName : String
  totalHours : ℚ
  rows : List RawRow
  isUnassigned : Bool
  hasIgnoredPT : Bool
  ignoredPTs : List String
deriving DecidableEq

/-- An entry of the `ignored` collection (lines 507-514). -/
structure IgnoredRec where
  empId : String
  empName : String
  totalHours : ℚ
  reason : String
deriving DecidableEq

/-- An entry of the `unassigned` collection (lines 498-505). -/
structure UnassignedRec where
  vendor : String
  empId : String
  empName : String
  totalHours : ℚ
deriving DecidableEq

/-- An entry of the `project_flagged` collection (lines 527-535). -/
structure FlaggedRec where
  vendor : String
  empId : String
  empName : String
  totalHours : ℚ
  ignoredPTs : List String
deriving DecidableEq

/-- The contribution one employee id makes to the four category collections. -/
structure Contrib where
  employees : List ExportRec
  ignored : List IgnoredRec
  unassigned : List UnassignedRec
  projectFlagged : List FlaggedRec
deriving DecidableEq

/-- The body of the per-employee loop (lines 483-549), as the contribution of
one id: resolve name and hours, look the id up in the directory, fall back to
the default vendor for ids starting with `P` (recording them in `unassigned`),
otherwise record the id as ignored; for ids with a vendor, divert to
`project_flagged` when a project-type label matches the ignore set, else emit
the exportable record. -/
def processEmp (t : RawTable) (vmap : List (String × String)) (ignoreSet : List String)
    (empId : String) : Contrib :=
  let empRows := rowsFor t.rows empId
  if empRows.isEmpty then ⟨[], [], [], []⟩
  else
    let empName := resolveName empRows
    let totalHours := totalHoursOf empRows
    match odGet? vmap empId with
    | none =>
      if startsWithP empId then
        let unas : List UnassignedRec := [⟨DEFAULT_VENDOR_NAME, empId, empName, totalHours⟩]
        let matched := matchedPTs t.hasProjectTypeCol ignoreSet empRows
        if matched.isEmpty then
          ⟨[⟨DEFAULT_VENDOR_NAME, empId, empName, totalHours, empRows, true, false, []⟩],
            [], unas, []⟩
        else
          ⟨[], [], unas, [⟨DEFAULT_VENDOR_NAME, empId, empName, totalHours, matched⟩]⟩
      else
        ⟨[], [⟨empId, empName, totalHours, "not_in_db"⟩], [], []⟩
    | some vendor =>
      let matched := matchedPTs t.hasProjectTypeCol ignoreSet empRows
      if matched.isEmpty then
        ⟨[⟨vendor, empId, empName, totalHours, empRows, false, false, []⟩], [], [], []⟩
      else
        ⟨[], [], [], [⟨vendor, empId, empName, totalHours, matched⟩]⟩

/-- The ordered list of distinct employee ids (line 480): the sorted set of
trimmed non-missing id cells. -/
def uniqueEmpIds (rows : List RawRow) : List String :=
  sortStrs (((rows.filterMap RawRow.empId).map strTrim).dedup)

/-- The errors `prepare_employee_data` can raise: the directory schema error
(line 456) or the full-table schema error (line 478). -/
inductive PrepError where
  | dbSchema (e : SchemaError)
  | fullSchema
deriving DecidableEq

/-- The result of `prepare_employee_data`: the four category collections and
the ordered distinct-id list. -/
structure PrepResult where
  employees : List ExportRec
  ignored : List IgnoredRec
  unassigned : List UnassignedRec
  projectFlagged : List FlaggedRec
  uniqueEmpIds : List String
deriving DecidableEq

/-- The successful payload of `prepare_employee_data`: the per-employee loop
(lines 480-551) over the sorted distinct ids of the normalized table,
concatenating each id's contribution to the four collections. -/
def runSplit (full : RawTable) (db : DbTable) (ignoreList : List String) : PrepResult :=
  let t := normalizeTable full
  let vmap := buildVendorMap db.rows
  let ignoreSet := mkIgnoreSet ignoreList
  let ids := uniqueEmpIds t.rows
  { employees := ids.flatMap fun i => (processEmp t vmap ignoreSet i).employees
    ignored := ids.flatMap fun i => (processEmp t vmap ignoreSet i).ignored
    unassigned := ids.flatMap fun i => (processEmp t vmap ignoreSet i).unassigned
    projectFlagged := ids.flatMap fun i => (processEmp t vmap ignoreSet i).projectFlagged
    uniqueEmpIds := ids }

/-- `prepare_employee_data` (lines 427-551): normalize the full table, build
the directory index (failing on its schema error), check the full table's
required columns, then run the per-employee loop. -/
def prepareEmployeeData (full : RawTable) (db : DbTable) (ignoreList : List String) :
    Except PrepError PrepResult :=
  match buildDirIndex db with
  | .error e => .error (.dbSchema e)
  | .ok _ =>
    if full.hasIdCol && full.hasNameCol then .ok (runSplit full db ignoreList)
    else .error .fullSchema

/-- The id set of the `Exportable` collection. -/
def exportIds (r : PrepResult) : List String :=
  r.employees.map ExportRec.empId

/-- The id set of the `IgnoredUnknown` collection. -/
def ignoredIds (r : PrepResult) : List String :=
  r.ignored.map IgnoredRec.empId

/-- The id set of the `UnassignedDefault` collection. -/
def unassignedIds (r : PrepResult) : List String :=
  r.unassigned.map UnassignedRec.empId

/-- The id set of the `ProjectFlagged` collection. -/
def flaggedIds (r : PrepResult) : List String :=
  r.projectFlagged.map FlaggedRec.empId

/-- An entry of the `failed` collection filled by the export loop of
`run_main_page` (lines 946-955). -/
structure FailedRec where
  vendor : String
  empId : String
  empName : String
  totalHours : ℚ
  errMsg : String
deriving DecidableEq

/-- Presentation rounding to 2 decimal places, the `round(x, 2)` applied when
a summary row is built (round half up; Python's half-even tie behaviour is not
relied on by any claim). -/
def round2 (q : ℚ) : ℚ :=
  ((q * 100 + 1 / 2).floor : ℚ) / 100

/-- One step of the per-vendor rollup loop (lines 584-589): create the
accumulator entry on first sight of a vendor, then add the employee's hours
and bump the count. -/
def vgStep (m : List (String × ℚ × Nat)) (e : ExportRec) : List (String × ℚ × Nat) :=
  match odGet? m e.vendor with
  | none => m ++ [(e.vendor, e.totalHours, 1)]
  | some hc => odUpsert m e.vendor (hc.1 + e.totalHours, hc.2 + 1)

/-- The per-vendor rollup `vendor_group` (lines 584-589): an insertion-ordered
map from vendor to (unrounded summed hours, employee count), keyed in
first-seen vendor order over the exportable collection. -/
def vendorGroup (employees : List ExportRec) : List (String × ℚ × Nat) :=
  employees.foldl vgStep []

/-- The presentation rows of the vendor summary table (lines 591-598): hours
rounded to 2 decimals only here. -/
def vendorSummaryRows (employees : List ExportRec) : List (String × ℚ × Nat) :=
  (vendorGroup employees).map (fun p => (p.1, round2 p.2.1, p.2.2))

/-- The run-level counts of `build_summary_structures` (lines 565-581).  The
run timestamp and period string are elided. -/
structure SummaryStats where
  totalEmps : Nat
  exportedEmps : Nat
  ignoredEmps : Nat
  failedEmps : Nat
  unassignedEmps : Nat
  projectFlaggedEmps : Nat
deriving DecidableEq

/-- The exported-employees presentation table (lines 601-611). -/
def exportedRowsOf (employees : List ExportRec) : List (String × String × String × ℚ) :=
  employees.map (fun e => (e.vendor, e.empId, e.empName, round2 e.totalHours))

/-- The ignored-employees presentation table (lines 613-623); the reason text
is the English `reason_not_in_db` message. -/
def ignoredRowsOf (ignored : List IgnoredRec) : List (String × String × ℚ × String) :=
  ignored.map (fun g => (g.empId, g.empName, round2 g.totalHours, "Not in vendor database"))

/-- The failed-splits presentation table (lines 625-635). -/
def failedRowsOf (failed : List FailedRec) : List (String × String × ℚ × String) :=
  failed.map (fun f => (f.empId, f.empName, round2 f.totalHours, f.errMsg))

/-- The unassigned-employees presentation table (lines 637-648). -/
def unassignedRowsOf (unassigned : List UnassignedRec) :
    List (String × String × String × ℚ) :=
  unassigned.map (fun u => (u.vendor, u.empId, u.empName, round2 u.totalHours))

/-- The project-flagged presentation table (lines 650-661): the matched labels
joined with a comma. -/
def flaggedRowsOf (projectFlagged : List FlaggedRec) :
    List (String × String × String × ℚ × String) :=
  projectFlagged.map
    (fun p => (p.vendor, p.empId, p.empName, round2 p.totalHours,
      String.intercalate ", " p.ignoredPTs))

/-- The output of `build_summary_structures`: the counts and the presentation
tables. -/
structure Summary where
  stats : SummaryStats
  vendorRows : List (String × ℚ × Nat)
  exportedTbl : List (String × String × String × ℚ)
  ignoredTbl : List (String × String × ℚ × String)
  failedTbl : List (String × String × ℚ × String)
  unassignedTbl : List (String × String × String × ℚ)
  flaggedTbl : List (String × String × String × ℚ × String)
deriving DecidableEq

/-- `build_summary_structures` (lines 554-663) on the already-normalized full
rows: run-level counts (each distinct-id count is the size of the
corresponding id set) plus the presentation tables. -/
def buildSummaryStructures (employees : List ExportRec) (ignored : List IgnoredRec)
    (failed : List FailedRec) (unassigned : List UnassignedRec)
    (projectFlagged : List FlaggedRec) (fullRows : List RawRow) : Summary :=
  { stats :=
      { totalEmps := (((fullRows.filterMap RawRow.empId).map strTrim).dedup).length
        exportedEmps := ((employees.map ExportRec.empId).dedup).length
        ignoredEmps := ignored.length
        failedEmps := failed.length
        unassignedEmps := ((unassigned.map UnassignedRec.empId).dedup).length
        projectFlaggedEmps := ((projectFlagged.map FlaggedRec.empId).dedup).length }
    vendorRows := vendorSummaryRows employees
    exportedTbl := exportedRowsOf employees
    ignoredTbl := ignoredRowsOf ignored
    failedTbl := failedRowsOf failed
    unassignedTbl := unassignedRowsOf unassigned
    flaggedTbl := flaggedRowsOf projectFlagged }

/-- The success filtering of `run_main_page` (lines 960-964): keep the
exportable records whose (id, vendor) key is among the successful exports. -/
def filterEmployeesBySuccess (succ : List (String × String)) (employees : List ExportRec) :
    List ExportRec :=
  employees.filter (fun e => succ.contains (e.empId, e.vendor))

/-- The success filtering of the unassigned collection (lines 966-968). -/
def filterUnassignedBySuccess (succ : List (String × String))
    (unassigned : List UnassignedRec) : List UnassignedRec :=
  unassigned.filter (fun u => succ.contains (u.empId, u.vendor))

/-- First-seen order of the values of a list: each value at its first
occurrence, later duplicates dropped (the iteration order of a Python dict
keyed by those values). -/
def firstSeen : List String → List String
  | [] => []
  | a :: l => a :: (firstSeen l).filter (fun b => b ≠ a)

/-! ### Concrete tables used to instantiate the theorems -/

/-- A directory table whose columns lack the organization column. -/
def c4db : DbTable :=
  ⟨["Emp ID", "Stuff"], []⟩

/-- A well-formed one-row timesheet table. -/
def c4full : RawTable :=
  ⟨true, true, true, false, [⟨some "E1", some "Ann", some 3, none⟩]⟩

/-- A directory with a blank-id row and duplicate ids (last row wins). -/
def c8rows : List DbRow :=
  [⟨"E1", "V1", none⟩, ⟨"  ", "VBlank", none⟩, ⟨"E1 ", "V2", none⟩]

/-- A timesheet whose only employee id starts with a lowercase p. -/
def c10full : RawTable :=
  ⟨true, true, true, false, [⟨some "p9", some "Pat", some 1, none⟩]⟩

/-- A directory table with the required columns and no rows. -/
def emptyDb : DbTable :=
  ⟨[DB_EMP_ID_COL, DB_VENDOR_COL], []⟩

/-- The run of the engine on `c10full` / `emptyDb`. -/
def c10res : PrepResult :=
  runSplit c10full emptyDb []

/-- The raw-row table of the specification's worked scenario: two rows for the
default-pattern id P100 and one row for the directory id E200. -/
def specTab : RawTable :=
  ⟨true, true, true, false,
    [⟨some "P100", some "Ann", some 3, none⟩,
     ⟨some "P100", some "", some 5, none⟩,
     ⟨some "E200", some "Bo", some 2, none⟩]⟩

/-- The directory of the worked scenario: E200 belongs to Acme. -/
def specDb : DbTable :=
  ⟨[DB_EMP_ID_COL, DB_VENDOR_COL], [⟨"E200", "Acme", none⟩]⟩

/-- The run of the engine on the worked scenario with an empty ignore list. -/
def specRes : PrepResult :=
  runSplit specTab specDb []

/-- A table whose only employee is a default-pattern id carrying a flagged
project type. -/
def c2full : RawTable :=
  ⟨true, true, true, true, [⟨some "P7", some "Dana", some 4, some "On Bench"⟩]⟩

/-- The run on `c2full` with the flagged label configured. -/
def c2res : PrepResult :=
  runSplit c2full emptyDb ["On Bench"]

/-- A table whose only employee is directory-resolved and carries a flagged
project type. -/
def c2wfull : RawTable :=
  ⟨true, true, true, true, [⟨some "E200", some "Bo", some 2, some "On Bench"⟩]⟩

/-- A directory resolving E200 to Acme. -/
def c2wdb : DbTable :=
  ⟨[DB_EMP_ID_COL, DB_VENDOR_COL], [⟨"E200", "Acme", none⟩]⟩

/-- The run on `c2wfull` with a lowercase configured label. -/
def c2wres : PrepResult :=
  runSplit c2wfull c2wdb ["on bench"]

/-- A table whose first name cell for E1 is the (non-missing) empty string and
whose second is `Bob`. -/
def c6full : RawTable :=
  ⟨true, true, true, false,
    [⟨some "E1", some "", some 1, none⟩, ⟨some "E1", some "Bob", some 2, none⟩]⟩

/-- A directory resolving E1 to Acme. -/
def c6db : DbTable :=
  ⟨[DB_EMP_ID_COL, DB_VENDOR_COL], [⟨"E1", "Acme", none⟩]⟩

/-- The run of the engine on `c6full` / `c6db`. -/
def c6res : PrepResult :=
  runSplit c6full c6db []

/-- The (id, resolved display name) pairs of every category record of a run. -/
def namePairs (r : PrepResult) : List (String × String) :=
  r.employees.map (fun e => (e.empId, e.empName)) ++
    r.ignored.map (fun g => (g.empId, g.empName)) ++
    r.unassigned.map (fun u => (u.empId, u.empName)) ++
    r.projectFlagged.map (fun f => (f.empId, f.empName))

/-- The single flagged record of the run on `c2wfull`. -/
def c7flag : FlaggedRec :=
  (c2wres.projectFlagged).headD ⟨"", "", "", 0, []⟩

/-- The worked-scenario table with its first two rows swapped. -/
def specTabSwapped : RawTable :=
  ⟨true, true, true, false,
    [⟨some "P100", some "", some 5, none⟩,
     ⟨some "P100", some "Ann", some 3, none⟩,
     ⟨some "E200", some "Bo", some 2, none⟩]⟩

/-- The first per-vendor rollup entry of the worked-scenario run. -/
def c5entry : String × ℚ × Nat :=
  (vendorGroup specRes.employees).headD ("", 0, 0)

/-- The (id, total hours) pairs of every category record of a run. -/
def hourPairs (r : PrepResult) : List (String × ℚ) :=
  r.employees.map (fun e => (e.empId, e.totalHours)) ++
    r.ignored.map (fun g => (g.empId, g.totalHours)) ++
    r.unassigned.map (fun u => (u.empId, u.totalHours)) ++
    r.projectFlagged.map (fun f => (f.empId, f.totalHours))

/-! ### Order and map lemmas -/

theorem listLeB_total (l₁ l₂ : List Char) : listLeB l₁ l₂ = true ∨ listLeB l₂ l₁ = true := by
  induction l₁ generalizing l₂ with
  | nil => exact Or.inl rfl
  | cons c cs ih =>
    cases l₂ with
    | nil => exact Or.inr rfl
    | cons d ds =>
      by_cases h₁ : c.toNat < d.toNat
      · exact Or.inl (by simp [listLeB, h₁])
      · by_cases h₂ : d.toNat < c.toNat
        · exact Or.inr (by simp [listLeB, h₂])
        · rcases ih ds with h | h
          · exact Or.inl (by simp [listLeB, h₁, h₂, h])
          · exact Or.inr (by simp [listLeB, h₁, h₂, h])

theorem strLeB_total (a b : String) : strLeB a b = true ∨ strLeB b a = true :=
  listLeB_total a.data b.data

theorem listLeB_trans {l₁ l₂ l₃ : List Char} (h₁ : listLeB l₁ l₂ = true)
    (h₂ : listLeB l₂ l₃ = true) : listLeB l₁ l₃ = true := by
  induction l₁ generalizing l₂ l₃ with
  | nil => rfl
  | cons c cs ih =>
    cases l₂ with
    | nil => simp [listLeB] at h₁
    | cons d ds =>
      cases l₃ with
      | nil => simp [listLeB] at h₂
      | cons e es =>
        simp only [listLeB] at h₁ h₂ ⊢
        rcases Nat.lt_trichotomy c.toNat d.toNat with hcd | hcd | hcd
        · rcases Nat.lt_trichotomy d.toNat e.toNat with hde | hde | hde
          · simp [Nat.lt_trans hcd hde]
          · simp [hde ▸ hcd]
          · simp [Nat.lt_asymm hde, hde] at h₂
        · rw [if_neg (by omega), if_neg (by omega)] at h₁
          rcases Nat.lt_trichotomy d.toNat e.toNat with hde | hde | hde
          · simp [hcd ▸ hde]
          · rw [if_neg (by omega), if_neg (by omega)] at h₂
            rw [if_neg (by omega), if_neg (by omega)]
            exact ih h₁ h₂
          · simp [Nat.lt_asymm hde, hde] at h₂
        · simp [Nat.lt_asymm hcd, hcd] at h₁

theorem strLeB_trans {a b c : String} (h₁ : strLeB a b = true) (h₂ : strLeB b c = true) :
    strLeB a c = true :=
  listLeB_trans h₁ h₂

theorem insertStr_perm (x : String) (l : List String) :
    List.Perm (insertStr x l) (x :: l) := by
  induction l with
  | nil => exact List.Perm.refl _
  | cons y ys ih =>
    simp only [insertStr]
    split
    · exact List.Perm.refl _
    · exact (ih.cons y).trans (List.Perm.swap x y ys)

theorem sortStrs_perm (l : List String) : List.Perm (sortStrs l) l := by
  induction l with
  | nil => exact List.Perm.refl _
  | cons y ys ih => exact (insertStr_perm y (sortStrs ys)).trans (ih.cons y)

theorem mem_sortStrs {a : String} {l : List String} : a ∈ sortStrs l ↔ a ∈ l :=
  (sortStrs_perm l).mem_iff

theorem insertStr_pairwise {l : List String} (x : String)
    (hl : l.Pairwise (fun a b => strLeB a b = true)) :
    (insertStr x l).Pairwise (fun a b => strLeB a b = true) := by
  induction l with
  | nil => simp [insertStr]
  | cons y ys ih =>
    rw [List.pairwise_cons] at hl
    simp only [insertStr]
    split
    · rename_i hxy
      refine List.Pairwise.cons ?_ (List.Pairwise.cons hl.1 hl.2)
      intro b hb
      rcases List.mem_cons.mp hb with rfl | hb
      · exact hxy
      · exact strLeB_trans hxy (hl.1 b hb)
    · rename_i hxy
      have hyx : strLeB y x = true := by
        rcases strLeB_total x y with h | h
        · exact absurd h hxy
        · exact h
      refine List.Pairwise.cons ?_ (ih hl.2)
      intro b hb
      rcases List.mem_cons.mp ((insertStr_perm x ys).mem_iff.mp hb) with rfl | h
      · exact hyx
      · exact hl.1 b h

theorem sortStrs_pairwise (l : List String) :
    (sortStrs l).Pairwise (fun a b => strLeB a b = true) := by
  induction l with
  | nil => simp [sortStrs]
  | cons y ys ih => exact insertStr_pairwise y ih

theorem sortStrs_nodup {l : List String} (h : l.Nodup) : (sortStrs l).Nodup :=
  (sortStrs_perm l).nodup_iff.mpr h

theorem odGet?_odUpsert {α : Type _} (m : List (String × α)) (k k' : String) (v : α) :
    odGet? (odUpsert m k v) k' = if k' = k then some v else odGet? m k' := by
  induction m with
  | nil =>
    by_cases h : k' = k
    · simp [odUpsert, odGet?, List.find?, h]
    · have hb : (k == k') = false := by simpa [beq_iff_eq] using Ne.symm h
      simp [odUpsert, odGet?, List.find?, h, hb]
  | cons p m ih =>
    simp only [odUpsert]
    by_cases hpk : p.1 = k
    · have hpkb : (p.1 == k) = true := by simpa [beq_iff_eq] using hpk
      by_cases h : k' = k
      · simp [hpkb, odGet?, List.find?, h]
      · have hb : (k == k') = false := by simpa [beq_iff_eq] using Ne.symm h
        have hpb : (p.1 == k') = false := by
          simpa [beq_iff_eq, hpk] using Ne.symm h
        simp only [hpkb, if_true, odGet?, List.find?, hb, hpb]
        rw [if_neg h]
    · have hpkb : (p.1 == k) = false := by simpa [beq_iff_eq] using hpk
      simp only [hpkb, Bool.false_eq_true, if_false]
      by_cases hpk' : p.1 = k'
      · have hpb : (p.1 == k') = true := by simpa [beq_iff_eq] using hpk'
        have hne : k' ≠ k := fun hh => hpk (hpk'.trans hh)
        simp only [odGet?, List.find?, hpb]
        rw [if_neg hne]
      · have hpb : (p.1 == k') = false := by simpa [beq_iff_eq] using hpk'
        simp only [odGet?, List.find?, hpb]
        simpa [odGet?] using ih

theorem odGet?_eq_none {α : Type _} {m : List (String × α)} {k : String} :
    odGet? m k = none ↔ ∀ p ∈ m, p.1 ≠ k := by
  simp [odGet?, List.find?_eq_none, beq_iff_eq]

theorem odGet?_of_mem_nodup {α : Type _} {m : List (String × α)} {p : String × α}
    (hn : (m.map Prod.fst).Nodup) (hp : p ∈ m) : odGet? m p.1 = some p.2 := by
  induction m with
  | nil => cases hp
  | cons q m ih =>
    rw [List.map_cons, List.nodup_cons] at hn
    rcases List.mem_cons.mp hp with rfl | hp
    · simp [odGet?, List.find?]
    · have hne : q.1 ≠ p.1 := by
        intro h
        exact hn.1 (h ▸ List.mem_map_of_mem Prod.fst hp)
      have : (q.1 == p.1) = false := by simpa [beq_iff_eq] using hne
      simp only [odGet?, List.find?, this]
      exact ih hn.2 hp

theorem odUpsert_map_fst_of_mem {α : Type _} {m : List (String × α)} {k : String} (v : α)
    (h : k ∈ m.map Prod.fst) : (odUpsert m k v).map Prod.fst = m.map Prod.fst := by
  induction m with
  | nil => cases h
  | cons p m ih =>
    simp only [odUpsert]
    by_cases hpk : p.1 = k
    · simp [hpk]
    · have hpkb : (p.1 == k) = false := by simpa [beq_iff_eq] using hpk
      have h' : k ∈ m.map Prod.fst := by
        rcases List.mem_map.mp h with ⟨q, hq, hqk⟩
        rcases List.mem_cons.mp hq with rfl | hq
        · exact absurd hqk hpk
        · exact hqk ▸ List.mem_map_of_mem Prod.fst hq
      simp [hpkb, ih h']

theorem firstSeen_mem {a : String} {l : List String} : a ∈ firstSeen l ↔ a ∈ l := by
  induction l with
  | nil => simp [firstSeen]
  | cons b l ih =>
    simp only [firstSeen, List.mem_cons, List.mem_filter]
    constructor
    · rintro (rfl | ⟨h, _⟩)
      · exact Or.inl rfl
      · exact Or.inr (ih.mp h)
    · rintro (rfl | h)
      · exact Or.inl rfl
      · by_cases hab : a = b
        · exact Or.inl hab
        · exact Or.inr ⟨ih.mpr h, by simpa using hab⟩

theorem firstSeen_concat (l : List String) (x : String) :
    firstSeen (l ++ [x]) = if x ∈ l then firstSeen l else firstSeen l ++ [x] := by
  induction l with
  | nil => simp [firstSeen]
  | cons a l ih =>
    have hc : (a :: l) ++ [x] = a :: (l ++ [x]) := rfl
    rw [hc]
    show a :: (firstSeen (l ++ [x])).filter (fun b => b ≠ a) = _
    rw [ih]
    by_cases hxl : x ∈ l
    · rw [if_pos hxl, if_pos (List.mem_cons_of_mem a hxl)]
      rfl
    · by_cases hxa : x = a
      · subst hxa
        rw [if_neg hxl, if_pos (List.mem_cons_self x l), List.filter_append]
        simp [firstSeen]
      · rw [if_neg hxl, if_neg (by simp [hxa, hxl]), List.filter_append]
        simp [firstSeen, hxa]

theorem firstSeen_nodup (l : List String) : (firstSeen l).Nodup := by
  induction l with
  | nil => simp [firstSeen]
  | cons a l ih =>
    simp only [firstSeen, List.nodup_cons]
    refine ⟨?_, ih.filter _⟩
    intro h
    exact (by simpa using (List.mem_filter.mp h).2 : a ≠ a) rfl

/-! ### String trimming lemmas -/

theorem dropWhile_head?_false {α : Type _} (p : α → Bool) (l : List α) {a : α}
    (h : (l.dropWhile p).head? = some a) : p a = false := by
  induction l with
  | nil => simp [List.dropWhile] at h
  | cons b l ih =>
    rw [List.dropWhile_cons] at h
    by_cases hb : p b = true
    · exact ih (by simpa [hb] using h)
    · rw [if_neg hb] at h
      simp only [List.head?_cons, Option.some.injEq] at h
      subst h
      exact Bool.eq_false_iff.mpr hb

theorem dropWhile_idem {α : Type _} (p : α → Bool) (l : List α) :
    (l.dropWhile p).dropWhile p = l.dropWhile p := by
  cases h : l.dropWhile p with
  | nil => simp
  | cons a t =>
    have ha : p a = false := dropWhile_head?_false p l (by rw [h]; rfl)
    rw [List.dropWhile_cons, if_neg (by simp [ha])]

theorem trimEnds_idem (p : Char → Bool) (l : List Char) :
    ((((((l.dropWhile p).reverse.dropWhile p).reverse).dropWhile p).reverse).dropWhile p).reverse
      = ((l.dropWhile p).reverse.dropWhile p).reverse := by
  set l1 := l.dropWhile p with hl1
  set r := l1.reverse.dropWhile p with hr
  have hstep1 : r.reverse.dropWhile p = r.reverse := by
    cases hrr : r.reverse with
    | nil => simp [hrr]
    | cons a t =>
      have hlast : r.getLast? = some a := by
        rw [← List.head?_reverse, hrr]
        rfl
      have hrne : r ≠ [] := by
        intro hnil
        rw [hnil] at hrr
        simp at hrr
      obtain ⟨pre, hpre⟩ := List.dropWhile_suffix (l := l1.reverse) p
      have hlast2 : (l1.reverse).getLast? = some a := by
        rw [← hpre, List.getLast?_append_of_ne_nil pre hrne]
        exact hlast
      have hheadl1 : l1.head? = some a := by
        have h2 := List.head?_reverse (l1.reverse)
        rw [List.reverse_reverse] at h2
        rw [h2, hlast2]
      rw [hl1] at hheadl1
      have hpa : p a = false := dropWhile_head?_false p l hheadl1
      rw [List.dropWhile_cons, if_neg (by simp [hpa])]
  rw [hstep1, List.reverse_reverse, hr, dropWhile_idem]

theorem strTrim_idem (s : String) : strTrim (strTrim s) = strTrim s := by
  rcases s with ⟨l⟩
  exact congrArg String.mk (trimEnds_idem Char.isWhitespace l)

/-! ### Characterization of the engine's building blocks -/

theorem mem_mkIgnoreSet {il : List String} {x : String} :
    x ∈ mkIgnoreSet il ↔ ∃ g ∈ il, g ≠ "" ∧ x = strLower (strTrim g) := by
  simp only [mkIgnoreSet, List.mem_dedup, List.mem_map, List.mem_filter]
  constructor
  · rintro ⟨g, ⟨hg, hgne⟩, rfl⟩
    exact ⟨g, hg, by simpa using hgne, rfl⟩
  · rintro ⟨g, hg, hgne, rfl⟩
    exact ⟨g, ⟨hg, by simpa using hgne⟩, rfl⟩

theorem mem_uniqueEmpIds {rows : List RawRow} {id : String} :
    id ∈ uniqueEmpIds rows ↔ ∃ rr ∈ rows, ∃ s, rr.empId = some s ∧ strTrim s = id := by
  simp only [uniqueEmpIds, mem_sortStrs, List.mem_dedup, List.mem_map, List.mem_filterMap]
  constructor
  · rintro ⟨s, ⟨rr, hrr, hs⟩, hts⟩
    exact ⟨rr, hrr, s, hs, hts⟩
  · rintro ⟨rr, hrr, s, hs, hts⟩
    exact ⟨s, ⟨rr, hrr, hs⟩, hts⟩

theorem uniqueEmpIds_nodup (rows : List RawRow) : (uniqueEmpIds rows).Nodup :=
  sortStrs_nodup (List.nodup_dedup _)

theorem rowsFor_isEmpty_false {rows : List RawRow} {id : String}
    (h : id ∈ uniqueEmpIds rows) : (rowsFor rows id).isEmpty = false := by
  obtain ⟨rr, hrr, s, hs, hts⟩ := mem_uniqueEmpIds.mp h
  have hmem : rr ∈ rowsFor rows id := by
    rw [rowsFor, List.mem_filter]
    exact ⟨hrr, by simp [cellStr, hs, hts]⟩
  exact List.isEmpty_eq_false.mpr (List.ne_nil_of_mem hmem)

theorem prepare_ok_iff {full : RawTable} {db : DbTable} {il : List String} {r : PrepResult} :
    prepareEmployeeData full db il = .ok r ↔
      (db.cols.contains DB_EMP_ID_COL && db.cols.contains DB_VENDOR_COL) = true ∧
      (full.hasIdCol && full.hasNameCol) = true ∧ r = runSplit full db il := by
  unfold prepareEmployeeData buildDirIndex
  cases hdb : db.cols.contains DB_EMP_ID_COL && db.cols.contains DB_VENDOR_COL with
  | false => simp [hdb]
  | true =>
    cases hfull : full.hasIdCol && full.hasNameCol with
    | false => simp [hdb, hfull]
    | true => simp [hdb, hfull, eq_comm]

/-! ### Branch analysis of the per-employee loop body -/

theorem mem_processEmp_ignored {t : RawTable} {vmap : List (String × String)}
    {iset : List String} {id id' : String} :
    id' ∈ (processEmp t vmap iset id).ignored.map IgnoredRec.empId ↔
      ((rowsFor t.rows id).isEmpty = false ∧ id' = id ∧ odGet? vmap id = none ∧
        startsWithP id = false) := by
  cases hne : (rowsFor t.rows id).isEmpty with
  | true => simp [processEmp, hne]
  | false =>
    cases hget : odGet? vmap id with
    | none =>
      cases hsp : startsWithP id with
      | true =>
        cases hm : (matchedPTs t.hasProjectTypeCol iset (rowsFor t.rows id)).isEmpty with
        | true => simp [processEmp, hne, hget, hsp, hm]
        | false => simp [processEmp, hne, hget, hsp, hm]
      | false => simp [processEmp, hne, hget, hsp]
    | some v =>
      cases hm : (matchedPTs t.hasProjectTypeCol iset (rowsFor t.rows id)).isEmpty with
      | true => simp [processEmp, hne, hget, hm]
      | false => simp [processEmp, hne, hget, hm]

theorem mem_processEmp_unassigned {t : RawTable} {vmap : List (String × String)}
    {iset : List String} {id id' : String} :
    id' ∈ (processEmp t vmap iset id).unassigned.map UnassignedRec.empId ↔
      ((rowsFor t.rows id).isEmpty = false ∧ id' = id ∧ odGet? vmap id = none ∧
        startsWithP id = true) := by
  cases hne : (rowsFor t.rows id).isEmpty with
  | true => simp [processEmp, hne]
  | false =>
    cases hget : odGet? vmap id with
    | none =>
      cases hsp : startsWithP id with
      | true =>
        cases hm : (matchedPTs t.hasProjectTypeCol iset (rowsFor t.rows id)).isEmpty with
        | true => simp [processEmp, hne, hget, hsp, hm]
        | false => simp [processEmp, hne, hget, hsp, hm]
      | false => simp [processEmp, hne, hget, hsp]
    | some v =>
      cases hm : (matchedPTs t.hasProjectTypeCol iset (rowsFor t.rows id)).isEmpty with
      | true => simp [processEmp, hne, hget, hm]
      | false => simp [processEmp, hne, hget, hm]

theorem mem_processEmp_employees {t : RawTable} {vmap : List (String × String)}
    {iset : List String} {id id' : String} :
    id' ∈ (processEmp t vmap iset id).employees.map ExportRec.empId ↔
      ((rowsFor t.rows id).isEmpty = false ∧ id' = id ∧
        (odGet? vmap id ≠ none ∨ startsWithP id = true) ∧
        (matchedPTs t.hasProjectTypeCol iset (rowsFor t.rows id)).isEmpty = true) := by
  cases hne : (rowsFor t.rows id).isEmpty with
  | true => simp [processEmp, hne]
  | false =>
    cases hget : odGet? vmap id with
    | none =>
      cases hsp : startsWithP id with
      | true =>
        cases hm : (matchedPTs t.hasProjectTypeCol iset (rowsFor t.rows id)).isEmpty with
        | true => simp [processEmp, hne, hget, hsp, hm]
        | false => simp [processEmp, hne, hget, hsp, hm]
      | false => simp [processEmp, hne, hget, hsp]
    | some v =>
      cases hm : (matchedPTs t.hasProjectTypeCol iset (rowsFor t.rows id)).isEmpty with
      | true => simp [processEmp, hne, hget, hm]
      | false => simp [processEmp, hne, hget, hm]

theorem mem_processEmp_flagged {t : RawTable} {vmap : List (String × String)}
    {iset : List String} {id id' : String} :
    id' ∈ (processEmp t vmap iset id).projectFlagged.map FlaggedRec.empId ↔
      ((rowsFor t.rows id).isEmpty = false ∧ id' = id ∧
        (odGet? vmap id ≠ none ∨ startsWithP id = true) ∧
        (matchedPTs t.hasProjectTypeCol iset (rowsFor t.rows id)).isEmpty = false) := by
  cases hne : (rowsFor t.rows id).isEmpty with
  | true => simp [processEmp, hne]
  | false =>
    cases hget : odGet? vmap id with
    | none =>
      cases hsp : startsWithP id with
      | true =>
        cases hm : (matchedPTs t.hasProjectTypeCol iset (rowsFor t.rows id)).isEmpty with
        | true => simp [processEmp, hne, hget, hsp, hm]
        | false => simp [processEmp, hne, hget, hsp, hm]
      | false => simp [processEmp, hne, hget, hsp]
    | some v =>
      cases hm : (matchedPTs t.hasProjectTypeCol iset (rowsFor t.rows id)).isEmpty with
      | true => simp [processEmp, hne, hget, hm]
      | false => simp [processEmp, hne, hget, hm]

theorem processEmp_employees_fields {t : RawTable} {vmap : List (String × String)}
    {iset : List String} {id : String} {e : ExportRec}
    (he : e ∈ (processEmp t vmap iset id).employees) :
    e.empId = id ∧ e.empName = resolveName (rowsFor t.rows id) ∧
      e.totalHours = totalHoursOf (rowsFor t.rows id) ∧ e.ignoredPTs = [] := by
  revert he
  cases hne : (rowsFor t.rows id).isEmpty with
  | true => simp [processEmp, hne]
  | false =>
    cases hget : odGet? vmap id with
    | none =>
      cases hsp : startsWithP id with
      | true =>
        cases hm : (matchedPTs t.hasProjectTypeCol iset (rowsFor t.rows id)).isEmpty with
        | true =>
          intro he
          simp [processEmp, hne, hget, hsp, hm] at he
          subst he
          simp
        | false => simp [processEmp, hne, hget, hsp, hm]
      | false => simp [processEmp, hne, hget, hsp]
    | some v =>
      cases hm : (matchedPTs t.hasProjectTypeCol iset (rowsFor t.rows id)).isEmpty with
      | true =>
        intro he
        simp [processEmp, hne, hget, hm] at he
        subst he
        simp
      | false => simp [processEmp, hne, hget, hm]

theorem processEmp_ignored_fields {t : RawTable} {vmap : List (String × String)}
    {iset : List String} {id : String} {g : IgnoredRec}
    (hg : g ∈ (processEmp t vmap iset id).ignored) :
    g = ⟨id, resolveName (rowsFor t.rows id), totalHoursOf (rowsFor t.rows id),
      "not_in_db"⟩ := by
  revert hg
  cases hne : (rowsFor t.rows id).isEmpty with
  | true => simp [processEmp, hne]
  | false =>
    cases hget : odGet? vmap id with
    | none =>
      cases hsp : startsWithP id with
      | true =>
        cases hm : (matchedPTs t.hasProjectTypeCol iset (rowsFor t.rows id)).isEmpty with
        | true => simp [processEmp, hne, hget, hsp, hm]
        | false => simp [processEmp, hne, hget, hsp, hm]
      | false =>
        intro hg
        simp [processEmp, hne, hget, hsp] at hg
        subst hg
        rfl
    | some v =>
      cases hm : (matchedPTs t.hasProjectTypeCol iset (rowsFor t.rows id)).isEmpty with
      | true => simp [processEmp, hne, hget, hm]
      | false => simp [processEmp, hne, hget, hm]

theorem processEmp_unassigned_fields {t : RawTable} {vmap : List (String × String)}
    {iset : List String} {id : String} {u : UnassignedRec}
    (hu : u ∈ (processEmp t vmap iset id).unassigned) :
    u = ⟨DEFAULT_VENDOR_NAME, id, resolveName (rowsFor t.rows id),
      totalHoursOf (rowsFor t.rows id)⟩ := by
  revert hu
  cases hne : (rowsFor t.rows id).isEmpty with
  | true => simp [processEmp, hne]
  | false =>
    cases hget : odGet? vmap id with
    | none =>
      cases hsp : startsWithP id with
      | true =>
        cases hm : (matchedPTs t.hasProjectTypeCol iset (rowsFor t.rows id)).isEmpty with
        | true =>
          intro hu
          simp [processEmp, hne, hget, hsp, hm] at hu
          subst hu
          rfl
        | false =>
          intro hu
          simp [processEmp, hne, hget, hsp, hm] at hu
          subst hu
          rfl
      | false => simp [processEmp, hne, hget, hsp]
    | some v =>
      cases hm : (matchedPTs t.hasProjectTypeCol iset (rowsFor t.rows id)).isEmpty with
      | true => simp [processEmp, hne, hget, hm]
      | false => simp [processEmp, hne, hget, hm]

theorem processEmp_flagged_fields {t : RawTable} {vmap : List (String × String)}
    {iset : List String} {id : String} {f : FlaggedRec}
    (hf : f ∈ (processEmp t vmap iset id).projectFlagged) :
    f.empId = id ∧ f.empName = resolveName (rowsFor t.rows id) ∧
      f.totalHours = totalHoursOf (rowsFor t.rows id) ∧
      f.ignoredPTs = matchedPTs t.hasProjectTypeCol iset (rowsFor t.rows id) := by
  revert hf
  cases hne : (rowsFor t.rows id).isEmpty with
  | true => simp [processEmp, hne]
  | false =>
    cases hget : odGet? vmap id with
    | none =>
      cases hsp : startsWithP id with
      | true =>
        cases hm : (matchedPTs t.hasProjectTypeCol iset (rowsFor t.rows id)).isEmpty with
        | true => simp [processEmp, hne, hget, hsp, hm]
        | false =>
          intro hf
          simp [processEmp, hne, hget, hsp, hm] at hf
          subst hf
          simp
      | false => simp [processEmp, hne, hget, hsp]
    | some v =>
      cases hm : (matchedPTs t.hasProjectTypeCol iset (rowsFor t.rows id)).isEmpty with
      | true => simp [processEmp, hne, hget, hm]
      | false =>
        intro hf
        simp [processEmp, hne, hget, hm] at hf
        subst hf
        simp

/-! ### Membership in the four collections of a run -/

theorem mem_runSplit_ignored {full : RawTable} {db : DbTable} {il : List String}
    {id' : String} :
    id' ∈ ignoredIds (runSplit full db il) ↔
      (id' ∈ uniqueEmpIds (normalizeTable full).rows ∧
        odGet? (buildVendorMap db.rows) id' = none ∧ startsWithP id' = false) := by
  simp only [ignoredIds, runSplit, List.map_flatMap, List.mem_flatMap]
  constructor
  · rintro ⟨i, hi, hmem⟩
    obtain ⟨_, rfl, hget, hsp⟩ := mem_processEmp_ignored.mp hmem
    exact ⟨hi, hget, hsp⟩
  · rintro ⟨hi, hget, hsp⟩
    exact ⟨id', hi,
      mem_processEmp_ignored.mpr ⟨rowsFor_isEmpty_false hi, rfl, hget, hsp⟩⟩

theorem mem_runSplit_unassigned {full : RawTable} {db : DbTable} {il : List String}
    {id' : String} :
    id' ∈ unassignedIds (runSplit full db il) ↔
      (id' ∈ uniqueEmpIds (normalizeTable full).rows ∧
        odGet? (buildVendorMap db.rows) id' = none ∧ startsWithP id' = true) := by
  simp only [unassignedIds, runSplit, List.map_flatMap, List.mem_flatMap]
  constructor
  · rintro ⟨i, hi, hmem⟩
    obtain ⟨_, rfl, hget, hsp⟩ := mem_processEmp_unassigned.mp hmem
    exact ⟨hi, hget, hsp⟩
  · rintro ⟨hi, hget, hsp⟩
    exact ⟨id', hi,
      mem_processEmp_unassigned.mpr ⟨rowsFor_isEmpty_false hi, rfl, hget, hsp⟩⟩

theorem mem_runSplit_employees {full : RawTable} {db : DbTable} {il : List String}
    {id' : String} :
    id' ∈ exportIds (runSplit full db il) ↔
      (id' ∈ uniqueEmpIds (normalizeTable full).rows ∧
        (odGet? (buildVendorMap db.rows) id' ≠ none ∨ startsWithP id' = true) ∧
        (matchedPTs (normalizeTable full).hasProjectTypeCol (mkIgnoreSet il)
          (rowsFor (normalizeTable full).rows id')).isEmpty = true) := by
  simp only [exportIds, runSplit, List.map_flatMap, List.mem_flatMap]
  constructor
  · rintro ⟨i, hi, hmem⟩
    obtain ⟨_, rfl, hcond, hm⟩ := mem_processEmp_employees.mp hmem
    exact ⟨hi, hcond, hm⟩
  · rintro ⟨hi, hcond, hm⟩
    exact ⟨id', hi,
      mem_processEmp_employees.mpr ⟨rowsFor_isEmpty_false hi, rfl, hcond, hm⟩⟩

theorem mem_runSplit_flagged {full : RawTable} {db : DbTable} {il : List String}
    {id' : String} :
    id' ∈ flaggedIds (runSplit full db il) ↔
      (id' ∈ uniqueEmpIds (normalizeTable full).rows ∧
        (odGet? (buildVendorMap db.rows) id' ≠ none ∨ startsWithP id' = true) ∧
        (matchedPTs (normalizeTable full).hasProjectTypeCol (mkIgnoreSet il)
          (rowsFor (normalizeTable full).rows id')).isEmpty = false) := by
  simp only [flaggedIds, runSplit, List.map_flatMap, List.mem_flatMap]
  constructor
  · rintro ⟨i, hi, hmem⟩
    obtain ⟨_, rfl, hcond, hm⟩ := mem_processEmp_flagged.mp hmem
    exact ⟨hi, hcond, hm⟩
  · rintro ⟨hi, hcond, hm⟩
    exact ⟨id', hi,
      mem_processEmp_flagged.mpr ⟨rowsFor_isEmpty_false hi, rfl, hcond, hm⟩⟩

/-! ### Directory-index lemmas -/

theorem mem_odUpsert {α : Type _} {m : List (String × α)} {k : String} {v : α}
    {p : String × α} : p ∈ odUpsert m k v → p = (k, v) ∨ p ∈ m := by
  induction m with
  | nil =>
    intro hp
    simpa [odUpsert] using hp
  | cons q m ih =>
    intro hp
    simp only [odUpsert] at hp
    by_cases hqk : (q.1 == k) = true
    · rw [if_pos hqk] at hp
      rcases List.mem_cons.mp hp with rfl | hp
      · exact Or.inl rfl
      · exact Or.inr (List.mem_cons_of_mem q hp)
    · rw [if_neg hqk] at hp
      rcases List.mem_cons.mp hp with rfl | hp
      · exact Or.inr (List.mem_cons_self _ _)
      · rcases ih hp with h | h
        · exact Or.inl h
        · exact Or.inr (List.mem_cons_of_mem q h)

theorem buildVendorMap_keys_ne_blank (rows : List DbRow) :
    ∀ p ∈ buildVendorMap rows, p.1 ≠ "" := by
  induction rows using List.reverseRecOn with
  | nil => simp [buildVendorMap]
  | append_singleton rows r ih =>
    simp only [buildVendorMap, List.foldl_append, List.foldl_cons, List.foldl_nil]
    intro p hp
    rw [dbStep] at hp
    split at hp
    · rename_i hne
      rcases mem_odUpsert hp with rfl | hp
      · exact hne
      · exact ih p hp
    · exact ih p hp

theorem buildVendorMap_get (rows : List DbRow) (id : String) (hid : id ≠ "") :
    odGet? (buildVendorMap rows) id =
      ((rows.filter (fun r => strTrim r.empId == id)).getLast?).map DbRow.vendor := by
  induction rows using List.reverseRecOn with
  | nil => rfl
  | append_singleton rows r ih =>
    simp only [buildVendorMap, List.foldl_append, List.foldl_cons, List.foldl_nil]
      at ih ⊢
    rw [List.filter_append]
    by_cases hblank : strTrim r.empId = ""
    · have hpred : (strTrim r.empId == id) = false := by
        rw [hblank]
        exact beq_eq_false_iff_ne.mpr (Ne.symm hid)
      rw [dbStep, if_neg (by simp [hblank])]
      simp only [List.filter_cons, List.filter_nil, hpred, Bool.false_eq_true, if_false]
      simpa using ih
    · rw [dbStep, if_pos hblank, odGet?_odUpsert]
      by_cases heq : id = strTrim r.empId
      · rw [if_pos heq]
        have hpred : (strTrim r.empId == id) = true := beq_iff_eq.mpr heq.symm
        simp only [List.filter_cons, List.filter_nil, hpred, if_true]
        rw [List.getLast?_concat]
        rfl
      · rw [if_neg heq]
        have hpred : (strTrim r.empId == id) = false :=
          beq_eq_false_iff_ne.mpr (fun h => heq h.symm)
        simp only [List.filter_cons, List.filter_nil, hpred, Bool.false_eq_true, if_false]
        simpa using ih

/-! ### Claim theorems -/

/-- Claim C4: building the directory index fails with a `SchemaError` if and
only if the directory table lacks the identity column or the organization
column; the error names exactly the missing columns and lists the columns
found, and `prepare_employee_data` propagates it with no category collections
computed. -/
theorem c4_directory_schema_error (full : RawTable) (db : DbTable) (il : List String) :
    ((buildDirIndex db).isOk = true ↔
      (DB_EMP_ID_COL ∈ db.cols ∧ DB_VENDOR_COL ∈ db.cols)) ∧
    (∀ e, buildDirIndex db = .error e →
      (∀ c, c ∈ e.missing ↔ ((c = DB_EMP_ID_COL ∨ c = DB_VENDOR_COL) ∧ c ∉ db.cols)) ∧
      e.found = db.cols ∧
      prepareEmployeeData full db il = .error (.dbSchema e)) := by
  have hmem₁ : db.cols.contains DB_EMP_ID_COL = true ↔ DB_EMP_ID_COL ∈ db.cols :=
    List.elem_iff
  have hmem₂ : db.cols.contains DB_VENDOR_COL = true ↔ DB_VENDOR_COL ∈ db.cols :=
    List.elem_iff
  cases h1 : db.cols.contains DB_EMP_ID_COL with
  | true =>
    cases h2 : db.cols.contains DB_VENDOR_COL with
    | true =>
      have hbd : buildDirIndex db = .ok (buildVendorMap db.rows, buildNameMap db.rows) := by
        unfold buildDirIndex
        rw [h1, h2]
        rfl
      refine ⟨?_, ?_⟩
      · constructor
        · intro _
          exact ⟨hmem₁.mp h1, hmem₂.mp h2⟩
        · intro _
          rw [hbd]
          rfl
      · intro e he
        rw [hbd] at he
        exact Except.noConfusion he
    | false =>
      have hbd : buildDirIndex db = .error ⟨missingDbCols db, db.cols⟩ := by
        unfold buildDirIndex
        rw [h1, h2]
        rfl
      have hnotin : DB_VENDOR_COL ∉ db.cols := fun hc => by
        rw [hmem₂.mpr hc] at h2
        cases h2
      refine ⟨?_, ?_⟩
      · constructor
        · intro h
          rw [hbd] at h
          simp [Except.isOk, Except.toBool] at h
        · rintro ⟨_, hb⟩
          exact absurd hb hnotin
      · intro e he
        rw [hbd] at he
        injection he with he'
        subst he'
        refine ⟨?_, rfl, by simp [prepareEmployeeData, hbd]⟩
        intro c
        simp only [missingDbCols, h1, h2, if_true, Bool.false_eq_true, if_false,
          List.nil_append]
        constructor
        · intro hc
          rcases List.mem_singleton.mp hc with rfl
          exact ⟨Or.inr rfl, hnotin⟩
        · rintro ⟨rfl | rfl, hnc⟩
          · exact absurd (hmem₁.mp h1) hnc
          · exact List.mem_singleton.mpr rfl
  | false =>
    have hnotin₁ : DB_EMP_ID_COL ∉ db.cols := fun hc => by
      rw [hmem₁.mpr hc] at h1
      cases h1
    cases h2 : db.cols.contains DB_VENDOR_COL with
    | true =>
      have hbd : buildDirIndex db = .error ⟨missingDbCols db, db.cols⟩ := by
        unfold buildDirIndex
        rw [h1, h2]
        rfl
      refine ⟨?_, ?_⟩
      · constructor
        · intro h
          rw [hbd] at h
          simp [Except.isOk, Except.toBool] at h
        · rintro ⟨ha, _⟩
          exact absurd ha hnotin₁
      · intro e he
        rw [hbd] at he
        injection he with he'
        subst he'
        refine ⟨?_, rfl, by simp [prepareEmployeeData, hbd]⟩
        intro c
        simp only [missingDbCols, h1, h2, if_true, Bool.false_eq_true, if_false,
          List.append_nil]
        constructor
        · intro hc
          rcases List.mem_singleton.mp hc with rfl
          exact ⟨Or.inl rfl, hnotin₁⟩
        · rintro ⟨rfl | rfl, hnc⟩
          · exact List.mem_singleton.mpr rfl
          · exact absurd (hmem₂.mp h2) hnc
    | false =>
      have hnotin₂ : DB_VENDOR_COL ∉ db.cols := fun hc => by
        rw [hmem₂.mpr hc] at h2
        cases h2
      have hbd : buildDirIndex db = .error ⟨missingDbCols db, db.cols⟩ := by
        unfold buildDirIndex
        rw [h1, h2]
        rfl
      refine ⟨?_, ?_⟩
      · constructor
        · intro h
          rw [hbd] at h
          simp [Except.isOk, Except.toBool] at h
        · rintro ⟨ha, _⟩
          exact absurd ha hnotin₁
      · intro e he
        rw [hbd] at he
        injection he with he'
        subst he'
        refine ⟨?_, rfl, by simp [prepareEmployeeData, hbd]⟩
        intro c
        simp only [missingDbCols, h1, h2, Bool.false_eq_true, if_false]
        constructor
        · intro hc
          rcases List.mem_cons.mp hc with rfl | hc
          · exact ⟨Or.inl rfl, hnotin₁⟩
          · rcases List.mem_singleton.mp hc with rfl
            exact ⟨Or.inr rfl, hnotin₂⟩
        · rintro ⟨rfl | rfl, _⟩
          · exact List.mem_cons_self _ _
          · exact List.mem_cons_of_mem _ (List.mem_singleton.mpr rfl)

theorem c4_directory_schema_error_witness :
    buildDirIndex c4db = .error ⟨["Organization"], ["Emp ID", "Stuff"]⟩ ∧
    (("Organization" ∈ (["Organization"] : List String) ↔
      (("Organization" = DB_EMP_ID_COL ∨ "Organization" = DB_VENDOR_COL) ∧
        "Organization" ∉ c4db.cols)) ∧
      (["Emp ID", "Stuff"] : List String) = c4db.cols ∧
      prepareEmployeeData c4full c4db [] =
        .error (.dbSchema ⟨["Organization"], ["Emp ID", "Stuff"]⟩)) := by
  have h := (c4_directory_schema_error c4full c4db []).2
    ⟨["Organization"], ["Emp ID", "Stuff"]⟩ (by decide)
  exact ⟨by decide, h.1 "Organization", h.2.1, h.2.2⟩

/-- Claim C8: when building the directory index, rows whose id is blank after
trimming contribute no mapping (the blank key is never present), and the
mapping kept for an id is the one of the last source row whose trimmed id
equals it — last-write-wins. -/
theorem c8_directory_blank_skip_last_write (rows : List DbRow) (id : String)
    (hid : id ≠ "") :
    odGet? (buildVendorMap rows) id =
      ((rows.filter (fun r => strTrim r.empId == id)).getLast?).map DbRow.vendor ∧
    odGet? (buildVendorMap rows) "" = none :=
  ⟨buildVendorMap_get rows id hid,
    odGet?_eq_none.mpr (buildVendorMap_keys_ne_blank rows)⟩

theorem c8_directory_blank_skip_last_write_witness :
    ("E1" : String) ≠ "" ∧
    (odGet? (buildVendorMap c8rows) "E1" =
      ((c8rows.filter (fun r => strTrim r.empId == "E1")).getLast?).map DbRow.vendor ∧
      odGet? (buildVendorMap c8rows) "" = none) ∧
    odGet? (buildVendorMap c8rows) "E1" = some "V2" :=
  ⟨by decide, c8_directory_blank_skip_last_write c8rows "E1" (by decide), by decide⟩

/-- Claim C10: the default-assignment prefix test is case-sensitive — an id
absent from the directory whose first character is a lowercase p is placed in
`IgnoredUnknown` and not in `UnassignedDefault`. -/
theorem c10_lowercase_p_ignored (full : RawTable) (db : DbTable) (il : List String)
    (r : PrepResult) (hok : prepareEmployeeData full db il = .ok r) (id : String)
    (hid : id ∈ r.uniqueEmpIds)
    (habs : odGet? (buildVendorMap db.rows) id = none)
    (hp : id.data.head? = some 'p') :
    id ∈ ignoredIds r ∧ id ∉ unassignedIds r := by
  obtain ⟨_, _, rfl⟩ := prepare_ok_iff.mp hok
  have hq : id ∈ uniqueEmpIds (normalizeTable full).rows := by
    simpa [runSplit] using hid
  have hsp : startsWithP id = false := by
    unfold startsWithP
    cases hd : id.data with
    | nil => rfl
    | cons c cs =>
      rw [hd] at hp
      simp only [List.head?_cons, Option.some.injEq] at hp
      subst hp
      rfl
  refine ⟨mem_runSplit_ignored.mpr ⟨hq, habs, hsp⟩, ?_⟩
  intro hmem
  obtain ⟨_, _, hsp'⟩ := mem_runSplit_unassigned.mp hmem
  rw [hsp] at hsp'
  cases hsp'

theorem c10_lowercase_p_ignored_witness :
    (prepareEmployeeData c10full emptyDb [] = .ok c10res ∧
      "p9" ∈ c10res.uniqueEmpIds ∧
      odGet? (buildVendorMap emptyDb.rows) "p9" = none ∧
      ("p9" : String).data.head? = some 'p') ∧
    ("p9" ∈ ignoredIds c10res ∧ "p9" ∉ unassignedIds c10res) :=
  ⟨⟨rfl, by decide, by decide, by decide⟩,
    c10_lowercase_p_ignored c10full emptyDb [] c10res rfl "p9" (by decide) (by decide)
      (by decide)⟩

/-! ### Claims C1, C2 (partition structure) -/

/-- Claim C1 as stated is false on the code: in the worked scenario the id
P100 (default-assigned) appears in both the `Exportable` and the
`UnassignedDefault` collections, so the four category id sets are not
pairwise disjoint. -/
theorem c1_partition_counterexample :
    "P100" ∈ exportIds specRes ∧ "P100" ∈ unassignedIds specRes := by
  decide

/-- Claim C1 (amended): the union of the four category id sets equals the set
of distinct trimmed ids of the normalized rows; `Exportable`, `IgnoredUnknown`
and `ProjectFlagged` are pairwise disjoint and `IgnoredUnknown` is disjoint
from `UnassignedDefault`; but every `UnassignedDefault` id also appears in
exactly one of `Exportable` or `ProjectFlagged`. -/
theorem c1_partition_amended (full : RawTable) (db : DbTable) (il : List String)
    (r : PrepResult) (hok : prepareEmployeeData full db il = .ok r) :
    (∀ id, (id ∈ exportIds r ∨ id ∈ ignoredIds r ∨ id ∈ unassignedIds r ∨
        id ∈ flaggedIds r) ↔
      (∃ rr ∈ (normalizeTable full).rows, ∃ s, rr.empId = some s ∧ strTrim s = id)) ∧
    (∀ id, ¬(id ∈ exportIds r ∧ id ∈ ignoredIds r)) ∧
    (∀ id, ¬(id ∈ exportIds r ∧ id ∈ flaggedIds r)) ∧
    (∀ id, ¬(id ∈ ignoredIds r ∧ id ∈ flaggedIds r)) ∧
    (∀ id, ¬(id ∈ ignoredIds r ∧ id ∈ unassignedIds r)) ∧
    (∀ id, id ∈ unassignedIds r →
      ((id ∈ exportIds r ∧ id ∉ flaggedIds r) ∨
        (id ∈ flaggedIds r ∧ id ∉ exportIds r))) := by
  obtain ⟨-, -, rfl⟩ := prepare_ok_iff.mp hok
  refine ⟨?_, ?_, ?_, ?_, ?_, ?_⟩
  · intro id
    rw [← mem_uniqueEmpIds]
    constructor
    · rintro (h | h | h | h)
      · exact (mem_runSplit_employees.mp h).1
      · exact (mem_runSplit_ignored.mp h).1
      · exact (mem_runSplit_unassigned.mp h).1
      · exact (mem_runSplit_flagged.mp h).1
    · intro hid
      cases hget : odGet? (buildVendorMap db.rows) id with
      | none =>
        cases hsp : startsWithP id with
        | true =>
          exact Or.inr (Or.inr (Or.inl (mem_runSplit_unassigned.mpr ⟨hid, hget, hsp⟩)))
        | false =>
          exact Or.inr (Or.inl (mem_runSplit_ignored.mpr ⟨hid, hget, hsp⟩))
      | some v =>
        cases hm : (matchedPTs (normalizeTable full).hasProjectTypeCol (mkIgnoreSet il)
            (rowsFor (normalizeTable full).rows id)).isEmpty with
        | true =>
          exact Or.inl (mem_runSplit_employees.mpr ⟨hid, Or.inl (by simp [hget]), hm⟩)
        | false =>
          exact Or.inr (Or.inr (Or.inr
            (mem_runSplit_flagged.mpr ⟨hid, Or.inl (by simp [hget]), hm⟩)))
  · intro id h
    obtain ⟨he, hg⟩ := h
    obtain ⟨-, hcond, -⟩ := mem_runSplit_employees.mp he
    obtain ⟨-, hget, hsp⟩ := mem_runSplit_ignored.mp hg
    rcases hcond with h' | h'
    · exact h' hget
    · rw [hsp] at h'
      cases h'
  · intro id h
    obtain ⟨he, hf⟩ := h
    have h1 := (mem_runSplit_employees.mp he).2.2
    have h2 := (mem_runSplit_flagged.mp hf).2.2
    rw [h1] at h2
    cases h2
  · intro id h
    obtain ⟨hg, hf⟩ := h
    obtain ⟨-, hget, hsp⟩ := mem_runSplit_ignored.mp hg
    obtain ⟨-, hcond, -⟩ := mem_runSplit_flagged.mp hf
    rcases hcond with h' | h'
    · exact h' hget
    · rw [hsp] at h'
      cases h'
  · intro id h
    obtain ⟨hg, hu⟩ := h
    have h1 := (mem_runSplit_ignored.mp hg).2.2
    have h2 := (mem_runSplit_unassigned.mp hu).2.2
    rw [h1] at h2
    cases h2
  · intro id hu
    obtain ⟨hid, hget, hsp⟩ := mem_runSplit_unassigned.mp hu
    cases hm : (matchedPTs (normalizeTable full).hasProjectTypeCol (mkIgnoreSet il)
        (rowsFor (normalizeTable full).rows id)).isEmpty with
    | true =>
      refine Or.inl ⟨mem_runSplit_employees.mpr ⟨hid, Or.inr hsp, hm⟩, ?_⟩
      intro hf
      have h2 := (mem_runSplit_flagged.mp hf).2.2
      rw [hm] at h2
      cases h2
    | false =>
      refine Or.inr ⟨mem_runSplit_flagged.mpr ⟨hid, Or.inr hsp, hm⟩, ?_⟩
      intro he
      have h2 := (mem_runSplit_employees.mp he).2.2
      rw [hm] at h2
      cases h2

theorem c1_partition_amended_witness :
    prepareEmployeeData specTab specDb [] = .ok specRes ∧
    "P100" ∈ unassignedIds specRes ∧
    ¬("P100" ∈ ignoredIds specRes ∧ "P100" ∈ unassignedIds specRes) ∧
    ("P100" ∈ unassignedIds specRes →
      (("P100" ∈ exportIds specRes ∧ "P100" ∉ flaggedIds specRes) ∨
        ("P100" ∈ flaggedIds specRes ∧ "P100" ∉ exportIds specRes))) := by
  have h := c1_partition_amended specTab specDb [] specRes rfl
  exact ⟨rfl, by decide, h.2.2.2.2.1 "P100", h.2.2.2.2.2 "P100"⟩

/-- Claim C2 as stated is false on the code: the default-assigned id P7
resolves to the default organization and carries the flagged label
`On Bench`, is placed in `ProjectFlagged`, yet is also present in
`UnassignedDefault` (the source appends to `unassigned` before the
project-type check). -/
theorem c2_flagged_counterexample :
    odGet? (buildVendorMap emptyDb.rows) "P7" = none ∧ startsWithP "P7" = true ∧
    "P7" ∈ flaggedIds c2res ∧ "P7" ∈ unassignedIds c2res := by
  decide

/-- Claim C2 (amended): an id that resolves to an organization (directory or
default prefix) and has a row whose trimmed, case-folded project-type value is
in the ignore set is placed in `ProjectFlagged` and never in `Exportable`; a
default-assigned id additionally remains recorded in `UnassignedDefault`. -/
theorem c2_flagged_precedence (full : RawTable) (db : DbTable) (il : List String)
    (r : PrepResult) (hok : prepareEmployeeData full db il = .ok r) (id : String)
    (hid : id ∈ r.uniqueEmpIds)
    (hres : odGet? (buildVendorMap db.rows) id ≠ none ∨ startsWithP id = true)
    (hpt : full.hasProjectTypeCol = true)
    (hfl : ∃ rr ∈ rowsFor (normalizeTable full).rows id, ∃ p,
      rr.projectType = some p ∧ strLower (strTrim p) ∈ mkIgnoreSet il) :
    id ∈ flaggedIds r ∧ id ∉ exportIds r := by
  obtain ⟨-, -, rfl⟩ := prepare_ok_iff.mp hok
  have hq : id ∈ uniqueEmpIds (normalizeTable full).rows := by
    simpa [runSplit] using hid
  have hmne : (matchedPTs (normalizeTable full).hasProjectTypeCol (mkIgnoreSet il)
      (rowsFor (normalizeTable full).rows id)).isEmpty = false := by
    obtain ⟨rr, hrr, p, hp, hmem⟩ := hfl
    have hpt' : (normalizeTable full).hasProjectTypeCol = true := hpt
    have hguard : ((normalizeTable full).hasProjectTypeCol &&
        !(mkIgnoreSet il).isEmpty) = true := by
      have h2 : (mkIgnoreSet il).isEmpty = false := by
        rw [List.isEmpty_eq_false]
        exact List.ne_nil_of_mem hmem
      rw [hpt', h2]
      rfl
    rw [List.isEmpty_eq_false]
    intro hnil
    have hm : strTrim p ∈ matchedPTs (normalizeTable full).hasProjectTypeCol
        (mkIgnoreSet il) (rowsFor (normalizeTable full).rows id) := by
      unfold matchedPTs
      rw [if_pos hguard, mem_sortStrs, List.mem_dedup, List.mem_filter]
      refine ⟨List.mem_map.mpr ⟨p, List.mem_filterMap.mpr ⟨rr, hrr, hp⟩, rfl⟩, ?_⟩
      show (mkIgnoreSet il).contains (strLower (strTrim (strTrim p))) = true
      rw [strTrim_idem]
      exact List.elem_iff.mpr hmem
    rw [hnil] at hm
    cases hm
  refine ⟨mem_runSplit_flagged.mpr ⟨hq, hres, hmne⟩, ?_⟩
  intro he
  have h2 := (mem_runSplit_employees.mp he).2.2
  rw [hmne] at h2
  cases h2

theorem c2_flagged_precedence_witness :
    prepareEmployeeData c2wfull c2wdb ["on bench"] = .ok c2wres ∧
    "E200" ∈ c2wres.uniqueEmpIds ∧
    ("E200" ∈ flaggedIds c2wres ∧ "E200" ∉ exportIds c2wres) := by
  refine ⟨rfl, by decide, ?_⟩
  exact c2_flagged_precedence c2wfull c2wdb ["on bench"] c2wres rfl "E200" (by decide)
    (Or.inl (by decide)) rfl
    ⟨⟨some "E200", some "Bo", some 2, some "On Bench"⟩, by decide, "On Bench", rfl,
      by decide⟩

/-! ### Claim C6 (display-name resolution) -/

theorem head?_filterMap_char {α : Type _} (l : List (Option α)) :
    ((l.filterMap id).head? = none → ∀ x ∈ l, x = none) ∧
    (∀ a, (l.filterMap id).head? = some a →
      ∃ pre post, l = pre ++ some a :: post ∧ ∀ x ∈ pre, x = none) := by
  induction l with
  | nil =>
    constructor
    · intro _ x hx
      cases hx
    · intro a h
      cases h
  | cons x l ih =>
    cases x with
    | none =>
      have hfm : ((none :: l).filterMap (@id (Option α))) = l.filterMap id := by
        simp
      constructor
      · intro h y hy
        rcases List.mem_cons.mp hy with rfl | hy
        · rfl
        · rw [hfm] at h
          exact ih.1 h y hy
      · intro a h
        rw [hfm] at h
        obtain ⟨pre, post, heq, hpre⟩ := ih.2 a h
        refine ⟨none :: pre, post, by rw [heq]; rfl, ?_⟩
        intro y hy
        rcases List.mem_cons.mp hy with rfl | hy
        · rfl
        · exact hpre y hy
    | some b =>
      have hfm : ((some b :: l).filterMap (@id (Option α))).head? = some b := by
        simp
      constructor
      · intro h
        rw [h] at hfm
        cases hfm
      · intro a h
        rw [hfm] at h
        injection h with h
        subst h
        exact ⟨[], l, rfl, by intro y hy; cases hy⟩

theorem namePairs_resolve {full : RawTable} {db : DbTable} {il : List String}
    {q : String × String} (hq : q ∈ namePairs (runSplit full db il)) :
    q.2 = resolveName (rowsFor (normalizeTable full).rows q.1) := by
  simp only [namePairs, List.mem_append] at hq
  rcases hq with ((hq | hq) | hq) | hq
  · obtain ⟨e, he, rfl⟩ := List.mem_map.mp hq
    simp only [runSplit, List.mem_flatMap] at he
    obtain ⟨i, hi, he⟩ := he
    obtain ⟨h1, h2, -, -⟩ := processEmp_employees_fields he
    rw [h1, h2]
  · obtain ⟨g, hg, rfl⟩ := List.mem_map.mp hq
    simp only [runSplit, List.mem_flatMap] at hg
    obtain ⟨i, hi, hg⟩ := hg
    have h := processEmp_ignored_fields hg
    subst h
    rfl
  · obtain ⟨u, hu, rfl⟩ := List.mem_map.mp hq
    simp only [runSplit, List.mem_flatMap] at hu
    obtain ⟨i, hi, hu⟩ := hu
    have h := processEmp_unassigned_fields hu
    subst h
    rfl
  · obtain ⟨f, hf, rfl⟩ := List.mem_map.mp hq
    simp only [runSplit, List.mem_flatMap] at hf
    obtain ⟨i, hi, hf⟩ := hf
    obtain ⟨h1, h2, -, -⟩ := processEmp_flagged_fields hf
    rw [h1, h2]

/-- Claim C6 as stated is false on the code: the id E1 has the non-missing
blank name cell first and the non-blank name `Bob` second, and the resolved
display name is the blank string, not the first non-blank name. -/
theorem c6_name_counterexample :
    (rowsFor (normalizeTable c6full).rows "E1").map RawRow.empName =
      [some "", some "Bob"] ∧
    c6res.employees.map ExportRec.empName = [""] := by
  decide

/-- Claim C6 (amended): the resolved display name of every category record is
the string of the first non-missing name cell among that id's normalized rows
in row order, defaulting to the empty string when every name cell is missing
(a present-but-blank cell is taken as is). -/
theorem c6_first_nonmissing_name (full : RawTable) (db : DbTable) (il : List String)
    (r : PrepResult) (hok : prepareEmployeeData full db il = .ok r) :
    ∀ q ∈ namePairs r,
      (∃ pre post,
        (rowsFor (normalizeTable full).rows q.1).map RawRow.empName =
          pre ++ some q.2 :: post ∧ ∀ x ∈ pre, x = none) ∨
      (q.2 = "" ∧
        ∀ x ∈ (rowsFor (normalizeTable full).rows q.1).map RawRow.empName, x = none) := by
  obtain ⟨-, -, rfl⟩ := prepare_ok_iff.mp hok
  intro q hq
  have hres := namePairs_resolve hq
  have hconv : (rowsFor (normalizeTable full).rows q.1).filterMap RawRow.empName =
      ((rowsFor (normalizeTable full).rows q.1).map RawRow.empName).filterMap id := by
    rw [List.filterMap_map]
    rfl
  cases hh : (((rowsFor (normalizeTable full).rows q.1).map RawRow.empName).filterMap
      id).head? with
  | none =>
    right
    constructor
    · rw [hres]
      unfold resolveName
      rw [hconv, hh]
      rfl
    · exact (head?_filterMap_char _).1 hh
  | some a =>
    left
    have hqa : q.2 = a := by
      rw [hres]
      unfold resolveName
      rw [hconv, hh]
      rfl
    obtain ⟨pre, post, heq, hpre⟩ := (head?_filterMap_char _).2 a hh
    refine ⟨pre, post, ?_, hpre⟩
    rw [hqa, heq]

theorem c6_first_nonmissing_name_witness :
    prepareEmployeeData specTab specDb [] = .ok specRes ∧
    ("P100", "Ann") ∈ namePairs specRes ∧
    ((∃ pre post,
        (rowsFor (normalizeTable specTab).rows "P100").map RawRow.empName =
          pre ++ some "Ann" :: post ∧ ∀ x ∈ pre, x = none) ∨
      ("Ann" = "" ∧
        ∀ x ∈ (rowsFor (normalizeTable specTab).rows "P100").map RawRow.empName,
          x = none)) := by
  refine ⟨rfl, by decide, ?_⟩
  exact c6_first_nonmissing_name specTab specDb [] specRes rfl ("P100", "Ann")
    (by decide)

/-! ### Claim C7 (flagged label normalization) -/

/-- Claim C7: matching of project-type values against the ignore set trims and
case-folds both sides, and the labels recorded in a `ProjectFlagged` record
are the trimmed original-casing values, de-duplicated and sorted. -/
theorem c7_flagged_labels (full : RawTable) (db : DbTable) (il : List String)
    (r : PrepResult) (hok : prepareEmployeeData full db il = .ok r) :
    ∀ f ∈ r.projectFlagged,
      f.ignoredPTs.Nodup ∧
      f.ignoredPTs.Pairwise (fun a b => strLeB a b = true) ∧
      (∀ s, s ∈ f.ignoredPTs ↔
        ((∃ rr ∈ rowsFor (normalizeTable full).rows f.empId, ∃ p,
            rr.projectType = some p ∧ strTrim p = s) ∧
          ∃ g ∈ il, g ≠ "" ∧ strLower (strTrim s) = strLower (strTrim g))) := by
  obtain ⟨-, -, rfl⟩ := prepare_ok_iff.mp hok
  intro f hfmem
  simp only [runSplit, List.mem_flatMap] at hfmem
  obtain ⟨i, hi, hf⟩ := hfmem
  obtain ⟨hid, -, -, hpts⟩ := processEmp_flagged_fields hf
  have hmm : f.empId ∈ (processEmp (normalizeTable full) (buildVendorMap db.rows)
      (mkIgnoreSet il) i).projectFlagged.map FlaggedRec.empId :=
    List.mem_map_of_mem _ hf
  obtain ⟨-, heq, -, hm⟩ := mem_processEmp_flagged.mp hmm
  rw [← heq] at hpts hm
  cases hguard : ((normalizeTable full).hasProjectTypeCol &&
      !(mkIgnoreSet il).isEmpty) with
  | false =>
    rw [matchedPTs, if_neg (by simp [hguard])] at hm
    cases hm
  | true =>
    rw [hpts, matchedPTs, if_pos hguard]
    refine ⟨sortStrs_nodup (List.nodup_dedup _), sortStrs_pairwise _, ?_⟩
    intro s
    rw [mem_sortStrs, List.mem_dedup, List.mem_filter]
    constructor
    · rintro ⟨hmemv, hcond⟩
      obtain ⟨p, hp, rfl⟩ := List.mem_map.mp hmemv
      obtain ⟨rr, hrr, hptp⟩ := List.mem_filterMap.mp hp
      refine ⟨⟨rr, hrr, p, hptp, rfl⟩, ?_⟩
      have : strLower (strTrim (strTrim p)) ∈ mkIgnoreSet il := List.elem_iff.mp hcond
      rw [strTrim_idem] at this
      obtain ⟨g, hg, hgne, hgl⟩ := mem_mkIgnoreSet.mp this
      exact ⟨g, hg, hgne, by rw [strTrim_idem]; exact hgl⟩
    · rintro ⟨⟨rr, hrr, p, hptp, rfl⟩, g, hg, hgne, hgl⟩
      refine ⟨List.mem_map.mpr ⟨p, List.mem_filterMap.mpr ⟨rr, hrr, hptp⟩, rfl⟩, ?_⟩
      show (mkIgnoreSet il).contains (strLower (strTrim (strTrim p))) = true
      rw [strTrim_idem]
      refine List.elem_iff.mpr (mem_mkIgnoreSet.mpr ⟨g, hg, hgne, ?_⟩)
      rw [strTrim_idem] at hgl
      exact hgl

theorem c7_flagged_labels_witness :
    prepareEmployeeData c2wfull c2wdb ["on bench"] = .ok c2wres ∧
    c7flag.ignoredPTs = ["On Bench"] ∧
    c7flag.ignoredPTs.Nodup ∧
    c7flag.ignoredPTs.Pairwise (fun a b => strLeB a b = true) ∧
    ("On Bench" ∈ c7flag.ignoredPTs ↔
      ((∃ rr ∈ rowsFor (normalizeTable c2wfull).rows c7flag.empId, ∃ p,
          rr.projectType = some p ∧ strTrim p = "On Bench") ∧
        ∃ g ∈ ["on bench"], g ≠ "" ∧
          strLower (strTrim "On Bench") = strLower (strTrim g))) := by
  have h := c7_flagged_labels c2wfull c2wdb ["on bench"] c2wres rfl c7flag
    (List.mem_of_mem_head? rfl)
  exact ⟨rfl, by decide, h.1, h.2.1, h.2.2 "On Bench"⟩

/-! ### Claim C3 (hours conservation) -/

theorem hourPairs_resolve {full : RawTable} {db : DbTable} {il : List String}
    {q : String × ℚ} (hq : q ∈ hourPairs (runSplit full db il)) :
    q.2 = totalHoursOf (rowsFor (normalizeTable full).rows q.1) := by
  simp only [hourPairs, List.mem_append] at hq
  rcases hq with ((hq | hq) | hq) | hq
  · obtain ⟨e, he, rfl⟩ := List.mem_map.mp hq
    simp only [runSplit, List.mem_flatMap] at he
    obtain ⟨i, hi, he⟩ := he
    obtain ⟨h1, -, h3, -⟩ := processEmp_employees_fields he
    rw [h1, h3]
  · obtain ⟨g, hg, rfl⟩ := List.mem_map.mp hq
    simp only [runSplit, List.mem_flatMap] at hg
    obtain ⟨i, hi, hg⟩ := hg
    have h := processEmp_ignored_fields hg
    subst h
    rfl
  · obtain ⟨u, hu, rfl⟩ := List.mem_map.mp hq
    simp only [runSplit, List.mem_flatMap] at hu
    obtain ⟨i, hi, hu⟩ := hu
    have h := processEmp_unassigned_fields hu
    subst h
    rfl
  · obtain ⟨f, hf, rfl⟩ := List.mem_map.mp hq
    simp only [runSplit, List.mem_flatMap] at hf
    obtain ⟨i, hi, hf⟩ := hf
    obtain ⟨h1, -, h3, -⟩ := processEmp_flagged_fields hf
    rw [h1, h3]

theorem ffillRows_id_hours : ∀ (rows : List RawRow) (a b c : Option String),
    (∀ rr ∈ rows, rr.empId.isSome = true) →
    (ffillRows a b c rows).map (fun rr => (rr.empId, rr.hours)) =
      rows.map (fun rr => (rr.empId, rr.hours)) := by
  intro rows
  induction rows with
  | nil =>
    intro a b c _
    rfl
  | cons r rs ih =>
    intro a b c h
    obtain ⟨s, hs⟩ := Option.isSome_iff_exists.mp (h r (List.mem_cons_self r rs))
    have htail : ∀ rr ∈ rs, rr.empId.isSome = true :=
      fun rr hrr => h rr (List.mem_cons_of_mem r hrr)
    simp only [ffillRows, List.map_cons, hs, Option.some_orElse]
    exact congrArg _ (ih _ _ _ htail)

theorem totalHours_eq_pairSum (rows : List RawRow) (id : String) :
    totalHoursOf (rowsFor rows id) =
      (((rows.map (fun rr => (rr.empId, rr.hours))).filter
        (fun q => strTrim (cellStr q.1) == id)).map (fun q => q.2.getD 0)).sum := by
  unfold totalHoursOf rowsFor
  rw [List.filter_map, List.map_map]
  rfl

theorem normalize_pairs (full : RawTable)
    (h : ∀ rr ∈ full.rows, rr.empId.isSome = true) :
    (normalizeTable full).rows.map (fun rr => (rr.empId, rr.hours)) =
      full.rows.map (fun rr =>
        (rr.empId, some (if full.hasHoursCol then rr.hours.getD 0 else 0))) := by
  unfold normalizeTable
  rw [List.map_map]
  have h1 : ((fun rr => (rr.empId, rr.hours)) ∘ coerceHours full.hasHoursCol) =
      (fun rr : RawRow =>
        (rr.empId, some (if full.hasHoursCol then rr.hours.getD 0 else 0))) := by
    funext rr
    rfl
  rw [h1]
  have h2 : (fun rr : RawRow =>
      (rr.empId, some (if full.hasHoursCol then rr.hours.getD 0 else 0))) =
      ((fun q : Option String × Option ℚ =>
        (q.1, some (if full.hasHoursCol then q.2.getD 0 else 0))) ∘
        (fun rr => (rr.empId, rr.hours))) := by
    funext rr
    rfl
  rw [h2, ← List.map_map, ffillRows_id_hours full.rows none none none h, List.map_map]

theorem totalHours_spec (full : RawTable) (id : String)
    (h : ∀ rr ∈ full.rows, rr.empId.isSome = true) :
    totalHoursOf (rowsFor (normalizeTable full).rows id) =
      ((full.rows.filter (fun rr => strTrim (cellStr rr.empId) == id)).map
        (fun rr => if full.hasHoursCol then rr.hours.getD 0 else 0)).sum := by
  rw [totalHours_eq_pairSum, normalize_pairs full h, List.filter_map, List.map_map]
  rfl

theorem totalHours_no_col (full : RawTable) (id : String)
    (hcol : full.hasHoursCol = false) :
    totalHoursOf (rowsFor (normalizeTable full).rows id) = 0 := by
  unfold totalHoursOf
  apply List.sum_eq_zero
  intro x hx
  obtain ⟨rr, hrr, rfl⟩ := List.mem_map.mp hx
  have hrr' : rr ∈ (normalizeTable full).rows := (List.mem_filter.mp hrr).1
  unfold normalizeTable at hrr'
  obtain ⟨rr₀, -, rfl⟩ := List.mem_map.mp hrr'
  simp [coerceHours, hcol]

/-- Claim C3: the total hours of every category record equal the exact sum of
that id's row-level hours after coercion (non-numeric or missing cells as 0),
this sum is invariant under permutation of the raw rows (whenever every row
carries an explicit id, so the forward-fill does not reassign rows), and an
absent hours column is synthesized as all-zero, making every total 0; sums are
never clamped. -/
theorem c3_hours_conservation (full full₂ : RawTable) (db : DbTable)
    (il : List String) (r : PrepResult)
    (hok : prepareEmployeeData full db il = .ok r) :
    (∀ q ∈ hourPairs r, q.2 = totalHoursOf (rowsFor (normalizeTable full).rows q.1)) ∧
    ((∀ rr ∈ full.rows, rr.empId.isSome = true) →
      ∀ q ∈ hourPairs r,
        q.2 = ((full.rows.filter (fun rr => strTrim (cellStr rr.empId) == q.1)).map
          (fun rr => if full.hasHoursCol then rr.hours.getD 0 else 0)).sum) ∧
    ((∀ rr ∈ full.rows, rr.empId.isSome = true) → List.Perm full.rows full₂.rows →
      full.hasHoursCol = full₂.hasHoursCol →
      ∀ id, totalHoursOf (rowsFor (normalizeTable full).rows id) =
        totalHoursOf (rowsFor (normalizeTable full₂).rows id)) ∧
    (full.hasHoursCol = false → ∀ q ∈ hourPairs r, q.2 = 0) := by
  obtain ⟨-, -, rfl⟩ := prepare_ok_iff.mp hok
  refine ⟨?_, ?_, ?_, ?_⟩
  · intro q hq
    exact hourPairs_resolve hq
  · intro hids q hq
    rw [hourPairs_resolve hq]
    exact totalHours_spec full q.1 hids
  · intro hids hperm hc id
    have hids₂ : ∀ rr ∈ full₂.rows, rr.empId.isSome = true :=
      fun rr hrr => hids rr (hperm.mem_iff.mpr hrr)
    rw [totalHours_spec full id hids, totalHours_spec full₂ id hids₂, hc]
    exact List.Perm.sum_eq (List.Perm.map _ (List.Perm.filter _ hperm))
  · intro hcol q hq
    rw [hourPairs_resolve hq]
    exact totalHours_no_col full q.1 hcol

theorem c3_hours_conservation_witness :
    prepareEmployeeData specTab specDb [] = .ok specRes ∧
    (∀ rr ∈ specTab.rows, rr.empId.isSome = true) ∧
    List.Perm specTab.rows specTabSwapped.rows ∧
    specTab.hasHoursCol = specTabSwapped.hasHoursCol ∧
    totalHoursOf (rowsFor (normalizeTable specTab).rows "P100") =
      totalHoursOf (rowsFor (normalizeTable specTabSwapped).rows "P100") := by
  have hperm : List.Perm specTab.rows specTabSwapped.rows := by
    show List.Perm
      ([⟨some "P100", some "Ann", some 3, none⟩, ⟨some "P100", some "", some 5, none⟩,
        ⟨some "E200", some "Bo", some 2, none⟩] : List RawRow)
      ([⟨some "P100", some "", some 5, none⟩, ⟨some "P100", some "Ann", some 3, none⟩,
        ⟨some "E200", some "Bo", some 2, none⟩] : List RawRow)
    exact List.Perm.swap _ _ _
  have h := (c3_hours_conservation specTab specTabSwapped specDb [] specRes rfl).2.2.1
    (by decide) hperm rfl "P100"
  exact ⟨rfl, by decide, hperm, rfl, h⟩

/-! ### Claim C5 (per-vendor rollup) -/

theorem odGet?_cons {α : Type _} (p : String × α) (m : List (String × α)) (k : String) :
    odGet? (p :: m) k = if (p.1 == k) = true then some p.2 else odGet? m k := by
  unfold odGet?
  rw [List.find?_cons]
  cases hp : p.1 == k with
  | true => simp [hp]
  | false => simp [hp]

theorem odGet?_append_single {α : Type _} (m : List (String × α)) (k k' : String) (v : α) :
    odGet? (m ++ [(k, v)]) k' = (odGet? m k').or (if k' = k then some v else none) := by
  induction m with
  | nil =>
    rw [List.nil_append, odGet?_cons]
    by_cases h : k' = k
    · have hb : ((k, v).1 == k') = true := beq_iff_eq.mpr h.symm
      rw [if_pos hb, if_pos h]
      rfl
    · have hb : ((k, v).1 == k') = false := beq_eq_false_iff_ne.mpr (Ne.symm h)
      rw [if_neg (by simp [hb]), if_neg h]
      rfl
  | cons p m ih =>
    rw [List.cons_append, odGet?_cons, odGet?_cons]
    by_cases hp : (p.1 == k') = true
    · rw [if_pos hp, if_pos hp]
      rfl
    · rw [if_neg hp, if_neg hp]
      exact ih

theorem odGet?_ne_none_of_mem_keys {α : Type _} {m : List (String × α)} {k : String}
    (h : k ∈ m.map Prod.fst) : odGet? m k ≠ none := by
  intro hn
  rw [odGet?_eq_none] at hn
  obtain ⟨p, hp, hpk⟩ := List.mem_map.mp h
  exact hn p hp hpk

theorem vgStep_none (m : List (String × ℚ × Nat)) (e : ExportRec)
    (h : odGet? m e.vendor = none) :
    vgStep m e = m ++ [(e.vendor, e.totalHours, 1)] := by
  unfold vgStep
  rw [h]

theorem vgStep_some (m : List (String × ℚ × Nat)) (e : ExportRec) (hc : ℚ × Nat)
    (h : odGet? m e.vendor = some hc) :
    vgStep m e = odUpsert m e.vendor (hc.1 + e.totalHours, hc.2 + 1) := by
  unfold vgStep
  rw [h]

theorem vendorGroup_get (l : List ExportRec) (v : String) :
    odGet? (vendorGroup l) v =
      if (l.filter (fun e => e.vendor == v)).isEmpty then none
      else
        some (((l.filter (fun e => e.vendor == v)).map ExportRec.totalHours).sum,
          (l.filter (fun e => e.vendor == v)).length) := by
  induction l using List.reverseRecOn with
  | nil => rfl
  | append_singleton l e ih =>
    simp only [vendorGroup, List.foldl_append, List.foldl_cons, List.foldl_nil] at ih ⊢
    rw [List.filter_append, List.filter_cons, List.filter_nil]
    by_cases hv : (e.vendor == v) = true
    · have hev : e.vendor = v := beq_iff_eq.mp hv
      subst hev
      rw [if_pos hv]
      cases hprev : odGet? (List.foldl vgStep [] l) e.vendor with
      | none =>
        have hfl : l.filter (fun e' => e'.vendor == e.vendor) = [] := by
          by_contra hne
          have hfalse : (l.filter (fun e' => e'.vendor == e.vendor)).isEmpty = false :=
            List.isEmpty_eq_false.mpr hne
          rw [ih, if_neg (by simp [hfalse])] at hprev
          cases hprev
        rw [vgStep_none _ _ hprev, odGet?_append_single, hprev, Option.none_or,
          if_pos rfl, hfl, List.nil_append]
        rw [if_neg (by simp)]
        simp
      | some hc =>
        have hprev' := hprev
        have hflb : (l.filter (fun e' => e'.vendor == e.vendor)).isEmpty = false := by
          by_contra hne
          rw [Bool.not_eq_false] at hne
          rw [ih, if_pos hne] at hprev
          cases hprev
        rw [ih, if_neg (by simp [hflb])] at hprev'
        injection hprev' with hprev'
        rw [vgStep_some _ _ _ hprev, odGet?_odUpsert, if_pos rfl, ← hprev']
        rw [if_neg (by simp [List.isEmpty_iff])]
        simp [List.sum_append, List.length_append]
    · have hvne : (e.vendor == v) = false := by
        rw [Bool.eq_false_iff]
        exact hv
      simp only [hvne, Bool.false_eq_true, if_false, List.append_nil]
      have hne' : v ≠ e.vendor := fun h => hv (beq_iff_eq.mpr h.symm)
      cases hprev : odGet? (List.foldl vgStep [] l) e.vendor with
      | none =>
        rw [vgStep_none _ _ hprev, odGet?_append_single, if_neg hne', Option.or_none]
        exact ih
      | some hc =>
        rw [vgStep_some _ _ _ hprev, odGet?_odUpsert, if_neg hne']
        exact ih

theorem vendorGroup_keys (l : List ExportRec) :
    (vendorGroup l).map Prod.fst = firstSeen (l.map ExportRec.vendor) := by
  induction l using List.reverseRecOn with
  | nil => rfl
  | append_singleton l e ih =>
    simp only [vendorGroup, List.foldl_append, List.foldl_cons, List.foldl_nil] at ih ⊢
    simp only [List.map_append, List.map_cons, List.map_nil]
    rw [firstSeen_concat]
    cases hprev : odGet? (List.foldl vgStep [] l) e.vendor with
    | none =>
      have habs : e.vendor ∉ l.map ExportRec.vendor := by
        intro hmem
        have hmem' : e.vendor ∈ firstSeen (l.map ExportRec.vendor) :=
          firstSeen_mem.mpr hmem
        rw [← ih] at hmem'
        exact odGet?_ne_none_of_mem_keys hmem' hprev
      rw [vgStep_none _ _ hprev, if_neg habs, List.map_append, ih]
      rfl
    | some hc =>
      have hmemk : e.vendor ∈ (List.foldl vgStep [] l).map Prod.fst := by
        by_contra habs
        have hn : odGet? (List.foldl vgStep [] l) e.vendor = none := by
          rw [odGet?_eq_none]
          intro p hp hpk
          exact habs (hpk ▸ List.mem_map_of_mem Prod.fst hp)
        rw [hn] at hprev
        cases hprev
      have hmem : e.vendor ∈ l.map ExportRec.vendor := by
        have hmemk' := hmemk
        rw [ih] at hmemk'
        exact firstSeen_mem.mp hmemk'
      rw [vgStep_some _ _ _ hprev, if_pos hmem, odUpsert_map_fst_of_mem _ hmemk, ih]

theorem nodup_of_length_le_one {α : Type _} {l : List α} (h : l.length ≤ 1) :
    l.Nodup := by
  match l, h with
  | [], _ => exact List.nodup_nil
  | [a], _ => exact List.nodup_singleton a
  | a :: b :: t, h =>
    simp only [List.length_cons] at h
    omega

theorem processEmp_employees_len (t : RawTable) (vmap : List (String × String))
    (iset : List String) (id : String) :
    (processEmp t vmap iset id).employees.length ≤ 1 := by
  cases hne : (rowsFor t.rows id).isEmpty with
  | true => simp [processEmp, hne]
  | false =>
    cases hget : odGet? vmap id with
    | none =>
      cases hsp : startsWithP id with
      | true =>
        cases hm : (matchedPTs t.hasProjectTypeCol iset (rowsFor t.rows id)).isEmpty with
        | true => simp [processEmp, hne, hget, hsp, hm]
        | false => simp [processEmp, hne, hget, hsp, hm]
      | false => simp [processEmp, hne, hget, hsp]
    | some v =>
      cases hm : (matchedPTs t.hasProjectTypeCol iset (rowsFor t.rows id)).isEmpty with
      | true => simp [processEmp, hne, hget, hm]
      | false => simp [processEmp, hne, hget, hm]

theorem runSplit_export_ids_nodup (full : RawTable) (db : DbTable) (il : List String) :
    (exportIds (runSplit full db il)).Nodup := by
  unfold exportIds runSplit
  rw [List.map_flatMap, List.nodup_flatMap]
  constructor
  · intro i hi
    apply nodup_of_length_le_one
    rw [List.length_map]
    exact processEmp_employees_len _ _ _ _
  · refine List.Pairwise.imp ?_ (uniqueEmpIds_nodup (normalizeTable full).rows)
    intro a b hab x hxa hxb
    obtain ⟨e, he, rfl⟩ := List.mem_map.mp hxa
    obtain ⟨e', he', heq⟩ := List.mem_map.mp hxb
    have h1 := (processEmp_employees_fields he).1
    have h2 := (processEmp_employees_fields he').1
    exact hab (h1.symm.trans (heq.symm.trans h2))

/-- Claim C5: every per-organization rollup entry carries the unrounded sum of
its exportable employees' total hours and the count of distinct exportable ids
with that organization; rounding to 2 decimals happens only in the
presentation row; and the rollup iterates in first-seen organization order
over the exportable collection. -/
theorem c5_vendor_rollup (full : RawTable) (db : DbTable) (il : List String)
    (r : PrepResult) (hok : prepareEmployeeData full db il = .ok r) :
    (∀ v h c, (v, h, c) ∈ vendorGroup r.employees →
      (h = ((r.employees.filter (fun e => e.vendor == v)).map ExportRec.totalHours).sum ∧
        c = (((r.employees.filter (fun e => e.vendor == v)).map
          ExportRec.empId).dedup).length ∧
        (v, round2 h, c) ∈ vendorSummaryRows r.employees)) ∧
    (vendorGroup r.employees).map Prod.fst = firstSeen (r.employees.map ExportRec.vendor) := by
  obtain ⟨-, -, rfl⟩ := prepare_ok_iff.mp hok
  refine ⟨?_, vendorGroup_keys _⟩
  intro v h c hmem
  have hnodupkeys : ((vendorGroup (runSplit full db il).employees).map Prod.fst).Nodup := by
    rw [vendorGroup_keys]
    exact firstSeen_nodup _
  have hget := odGet?_of_mem_nodup hnodupkeys hmem
  rw [vendorGroup_get] at hget
  by_cases hf : ((runSplit full db il).employees.filter (fun e => e.vendor == v)).isEmpty = true
  · rw [if_pos hf] at hget
    cases hget
  · rw [if_neg hf] at hget
    injection hget with hget
    rw [Prod.mk.injEq] at hget
    obtain ⟨hh, hc⟩ := hget
    refine ⟨hh.symm, ?_, ?_⟩
    · rw [← hc]
      have hsub : (((runSplit full db il).employees.filter
          (fun e => e.vendor == v)).map ExportRec.empId).Sublist
          (exportIds (runSplit full db il)) :=
        List.Sublist.map _ (List.filter_sublist _)
      have hnd := List.Nodup.sublist hsub (runSplit_export_ids_nodup full db il)
      rw [List.dedup_eq_self.mpr hnd, List.length_map]
    · unfold vendorSummaryRows
      exact List.mem_map.mpr ⟨(v, h, c), hmem, rfl⟩

theorem c5_vendor_rollup_witness :
    prepareEmployeeData specTab specDb [] = .ok specRes ∧
    (vendorGroup specRes.employees).map Prod.fst = ["Acme", "UnAssigned Vendor"] ∧
    firstSeen (specRes.employees.map ExportRec.vendor) = ["Acme", "UnAssigned Vendor"] ∧
    (c5entry.2.1 = ((specRes.employees.filter
        (fun e => e.vendor == c5entry.1)).map ExportRec.totalHours).sum ∧
      c5entry.2.2 = (((specRes.employees.filter
        (fun e => e.vendor == c5entry.1)).map ExportRec.empId).dedup).length ∧
      (c5entry.1, round2 c5entry.2.1, c5entry.2.2) ∈ vendorSummaryRows specRes.employees) := by
  have h := (c5_vendor_rollup specTab specDb [] specRes rfl).1 c5entry.1 c5entry.2.1
    c5entry.2.2 (List.mem_of_mem_head? rfl)
  exact ⟨rfl, by decide, by decide, h⟩

/-! ### Claim C9 (success filtering is frame-preserving) -/

/-- Claim C9: handing the aggregator the success-filtered exportable and
unassigned collections (and whatever failed list the export loop produced)
leaves the IgnoredUnknown and ProjectFlagged tables, their counts and the
total-distinct-ids count exactly as in the unfiltered run, and every record
that survives the filter is an unchanged record of the original exportable
collection: a write failure for one employee never changes another employee's
category or the ignored/flagged counts. -/
theorem c9_success_filter_frame (full : RawTable) (db : DbTable) (il : List String)
    (r : PrepResult) (hok : prepareEmployeeData full db il = .ok r)
    (succ : List (String × String)) (failed : List FailedRec) :
    (buildSummaryStructures (filterEmployeesBySuccess succ r.employees) r.ignored failed
        (filterUnassignedBySuccess succ r.unassigned) r.projectFlagged
        (normalizeTable full).rows).ignoredTbl =
      (buildSummaryStructures r.employees r.ignored [] r.unassigned r.projectFlagged
        (normalizeTable full).rows).ignoredTbl ∧
    (buildSummaryStructures (filterEmployeesBySuccess succ r.employees) r.ignored failed
        (filterUnassignedBySuccess succ r.unassigned) r.projectFlagged
        (normalizeTable full).rows).flaggedTbl =
      (buildSummaryStructures r.employees r.ignored [] r.unassigned r.projectFlagged
        (normalizeTable full).rows).flaggedTbl ∧
    (buildSummaryStructures (filterEmployeesBySuccess succ r.employees) r.ignored failed
        (filterUnassignedBySuccess succ r.unassigned) r.projectFlagged
        (normalizeTable full).rows).stats.ignoredEmps =
      (buildSummaryStructures r.employees r.ignored [] r.unassigned r.projectFlagged
        (normalizeTable full).rows).stats.ignoredEmps ∧
    (buildSummaryStructures (filterEmployeesBySuccess succ r.employees) r.ignored failed
        (filterUnassignedBySuccess succ r.unassigned) r.projectFlagged
        (normalizeTable full).rows).stats.projectFlaggedEmps =
      (buildSummaryStructures r.employees r.ignored [] r.unassigned r.projectFlagged
        (normalizeTable full).rows).stats.projectFlaggedEmps ∧
    (buildSummaryStructures (filterEmployeesBySuccess succ r.employees) r.ignored failed
        (filterUnassignedBySuccess succ r.unassigned) r.projectFlagged
        (normalizeTable full).rows).stats.totalEmps =
      (buildSummaryStructures r.employees r.ignored [] r.unassigned r.projectFlagged
        (normalizeTable full).rows).stats.totalEmps ∧
    (∀ e ∈ filterEmployeesBySuccess succ r.employees, e ∈ r.employees) ∧
    (∀ u ∈ filterUnassignedBySuccess succ r.unassigned, u ∈ r.unassigned) := by
  refine ⟨rfl, rfl, rfl, rfl, rfl, ?_, ?_⟩
  · intro e he
    unfold filterEmployeesBySuccess at he
    exact (List.mem_filter.mp he).1
  · intro u hu
    unfold filterUnassignedBySuccess at hu
    exact (List.mem_filter.mp hu).1

theorem c9_success_filter_frame_witness :
    prepareEmployeeData specTab specDb [] = .ok specRes ∧
    (buildSummaryStructures
        (filterEmployeesBySuccess [("E200", "Acme")] specRes.employees) specRes.ignored []
        (filterUnassignedBySuccess [("E200", "Acme")] specRes.unassigned)
        specRes.projectFlagged (normalizeTable specTab).rows).ignoredTbl =
      (buildSummaryStructures specRes.employees specRes.ignored [] specRes.unassigned
        specRes.projectFlagged (normalizeTable specTab).rows).ignoredTbl ∧
    (buildSummaryStructures
        (filterEmployeesBySuccess [("E200", "Acme")] specRes.employees) specRes.ignored []
        (filterUnassignedBySuccess [("E200", "Acme")] specRes.unassigned)
        specRes.projectFlagged (normalizeTable specTab).rows).stats.projectFlaggedEmps =
      (buildSummaryStructures specRes.employees specRes.ignored [] specRes.unassigned
        specRes.projectFlagged (normalizeTable specTab).rows).stats.projectFlaggedEmps := by
  have h := c9_success_filter_frame specTab specDb [] specRes rfl [("E200", "Acme")] []
  exact ⟨rfl, h.1, h.2.2.2.1⟩

end TimesheetSplitter
